import Mathlib

/-!
Verification of the TAE engine (TALES scripting language and interpreter).

This file is a shallow embedding of the Python sources of the repository:
`tae_engine/game_state.py`, `tae_engine/effects.py`, `tae_engine/conditions.py`,
`tae_engine/tales_lexer.py`, `tae_engine/tales_parser.py` and
`tae_engine/tales_runner.py`.  Python dictionaries are embedded as
insertion-ordered association lists (first occurrence wins, updates are
in place, fresh keys are appended — exactly the observable behaviour of a
`dict` whose keys are unique), Python exceptions as `Except` values carrying
the exception class, and the object heap of the runner (which aliases the
three inner dictionaries of `GameState` between the live state and history
snapshots) as an explicit store indexed by natural numbers.
-/

namespace TAE

/-- Python exception classes that the engine raises or catches.
`valueError` carries the message of the `ValueError` (the descriptive text
built by the source); `indexError` models `IndexError` raised by an
out-of-range `parts[i]` access; `typeError` models `TypeError` raised by
unsupported `+`/`<` on mixed operand types. -/
inductive PyErr where
  | valueError (msg : String)
  | indexError
  | typeError
  deriving DecidableEq, Repr

/-- A Python value stored in `stats` / `game_variables`: the engine only ever
stores ints, floats and strings there (parsed from the DSL strings).
Floats are modelled as rationals; binary floating-point rounding and the
special values inf/nan are not modelled — no theorem below depends on
float arithmetic or on the exact boundary of Python's `float()` parser. -/
inductive PyVal where
  | int (n : Int)
  | float (q : Rat)
  | str (s : String)
  deriving DecidableEq, Repr

/-- Python `a + b` on stored values (used by `increment_stat`):
defined for int/int, float/float, mixed numeric (promoting to float) and
str/str (concatenation); any other combination raises `TypeError` (`none`). -/
def pyAdd : PyVal → PyVal → Option PyVal
  | .int m, .int n => some (.int (m + n))
  | .int m, .float q => some (.float ((m : Rat) + q))
  | .float q, .int n => some (.float (q + (n : Rat)))
  | .float p, .float q => some (.float (p + q))
  | .str s, .str t => some (.str (s ++ t))
  | _, _ => none

/-- Python `a == b` on stored values: mixed numeric compares numerically,
number/string compares unequal, otherwise structural. -/
def pyEq : PyVal → PyVal → Bool
  | .int m, .int n => m == n
  | .int m, .float q => ((m : Rat) == q)
  | .float q, .int n => (q == (n : Rat))
  | .float p, .float q => p == q
  | .str s, .str t => s == t
  | _, _ => false

/-- Python `a < b` on stored values: numeric pairs compare numerically,
str/str lexicographically, a mixed number/string comparison raises
`TypeError` (`none`). -/
def pyLt : PyVal → PyVal → Option Bool
  | .int m, .int n => some (decide (m < n))
  | .int m, .float q => some (decide ((m : Rat) < q))
  | .float q, .int n => some (decide (q < (n : Rat)))
  | .float p, .float q => some (decide (p < q))
  | .str s, .str t => some (decide (s < t))
  | _, _ => none

/-! ### Structural string helpers

Lean's own `String.splitOn` and `String.trim` are defined by well-founded
recursion on byte positions and do not reduce definitionally, so the
Python operations `str.split(sep)` and `str.strip()` are embedded
structurally over the character list.  The semantics coincide with
Python's for the single-character separators the engine uses. -/

/-- `split` of a character list on a single separator character; like
Python's `str.split(sep)` it yields `[""]` on the empty string and keeps
empty fields. -/
def splitChars (sep : Char) : List Char → List (List Char)
  | [] => [[]]
  | c :: cs =>
    let r := splitChars sep cs
    if c = sep then [] :: r
    else
      match r with
      | [] => [[c]]
      | h :: t => (c :: h) :: t

/-- Python `s.split(sep)` for a one-character separator. -/
def pySplit (s : String) (sep : Char) : List String :=
  (splitChars sep s.toList).map List.asString

/-- Python `s.strip()` restricted to ASCII whitespace (the only whitespace
appearing in the engine's scripts). -/
def trimChars (cs : List Char) : List Char :=
  ((cs.dropWhile Char.isWhitespace).reverse.dropWhile Char.isWhitespace).reverse

/-- Python `s.strip()`. -/
def pyStrip (s : String) : String :=
  (trimChars s.toList).asString

/-! ### Python dictionaries as insertion-ordered association lists -/

/-- `d[k]` lookup returning `none` when the key is absent (`k in d` is
`(dictGet d k).isSome`). -/
def dictGet {α : Type} : List (String × α) → String → Option α
  | [], _ => none
  | (k0, v0) :: rest, k => if k0 = k then some v0 else dictGet rest k

/-- `d[k] = v`: replaces the value at the first (only) occurrence of `k`,
or appends a fresh entry — the insertion-order behaviour of a Python dict. -/
def dictSet {α : Type} : List (String × α) → String → α → List (String × α)
  | [], k, v => [(k, v)]
  | (k0, v0) :: rest, k, v =>
    if k0 = k then (k, v) :: rest else (k0, v0) :: dictSet rest k v

/-- `del d[k]`: removes the first (only) occurrence of `k`. -/
def dictDel {α : Type} : List (String × α) → String → List (String × α)
  | [], _ => []
  | (k0, v0) :: rest, k => if k0 = k then rest else (k0, v0) :: dictDel rest k

/-! ### GameState (game_state.py) -/

/-- The three dictionaries of a `GameState`, by value.  (The runner aliases
these dictionaries through its history; that aliasing is modelled separately
by the heap in the runner section.) -/
structure GameState where
  inventory : List (String × Int)
  stats : List (String × PyVal)
  game_variables : List (String × PyVal)
  deriving DecidableEq, Repr

/-- `GameState()` — a fresh empty state. -/
def GameState.init : GameState := ⟨[], [], []⟩

/-- `GameState.add_to_inventory`. -/
def GameState.add_to_inventory (gs : GameState) (item_name : String)
    (quantity : Int) : GameState :=
  match dictGet gs.inventory item_name with
  | some q => { gs with inventory := dictSet gs.inventory item_name (q + quantity) }
  | none => { gs with inventory := dictSet gs.inventory item_name quantity }

/-- `GameState.remove_from_inventory`: returns the success flag and the new
state.  Mirrors the source exactly: guard, in-place subtraction, then
deletion of the key when the remaining quantity is `<= 0`. -/
def GameState.remove_from_inventory (gs : GameState) (item_name : String)
    (quantity : Int) : Bool × GameState :=
  match dictGet gs.inventory item_name with
  | none => (false, gs)
  | some current =>
    if current < quantity then (false, gs)
    else
      let inv1 := dictSet gs.inventory item_name (current - quantity)
      if current - quantity ≤ 0 then
        (true, { gs with inventory := dictDel inv1 item_name })
      else
        (true, { gs with inventory := inv1 })

/-- `GameState.update_stat`. -/
def GameState.update_stat (gs : GameState) (stat_name : String) (value : PyVal) :
    GameState :=
  { gs with stats := dictSet gs.stats stat_name value }

/-- `GameState.increment_stat`: `+=` may raise `TypeError` on mixed types. -/
def GameState.increment_stat (gs : GameState) (stat_name : String)
    (amount : PyVal) : Except PyErr GameState :=
  match dictGet gs.stats stat_name with
  | none => .ok { gs with stats := dictSet gs.stats stat_name amount }
  | some v =>
    match pyAdd v amount with
    | some v2 => .ok { gs with stats := dictSet gs.stats stat_name v2 }
    | none => .error .typeError

/-- `GameState.has_item`. -/
def GameState.has_item (gs : GameState) (item_name : String) (quantity : Int) :
    Bool :=
  match dictGet gs.inventory item_name with
  | some q => quantity ≤ q
  | none => false

/-- Dispatch of one comparison operator over two values, as written in
`GameState.check_stat` / `CheckVarCondition.check`; an unknown operator
raises a `ValueError`, an unsupported ordered comparison a `TypeError`. -/
def compareVals (current value : PyVal) (comparison : String) :
    Except PyErr Bool :=
  if comparison = "==" then .ok (pyEq current value)
  else if comparison = "!=" then .ok (!pyEq current value)
  else if comparison = ">" then
    match pyLt value current with
    | some b => .ok b
    | none => .error .typeError
  else if comparison = "<" then
    match pyLt current value with
    | some b => .ok b
    | none => .error .typeError
  else if comparison = ">=" then
    match pyLt current value with
    | some b => .ok (!b)
    | none => .error .typeError
  else if comparison = "<=" then
    match pyLt value current with
    | some b => .ok (!b)
    | none => .error .typeError
  else .error (.valueError ("Unknown comparison operator: " ++ comparison))

/-- `GameState.check_stat`: an absent stat meets no comparator. -/
def GameState.check_stat (gs : GameState) (stat_name : String) (value : PyVal)
    (comparison : String) : Except PyErr Bool :=
  match dictGet gs.stats stat_name with
  | none => .ok false
  | some current => compareVals current value comparison

/-- `GameState.set_variable`. -/
def GameState.set_variable (gs : GameState) (name : String) (value : PyVal) :
    GameState :=
  { gs with game_variables := dictSet gs.game_variables name value }

/-- `GameState.get_variable` with default `None`. -/
def GameState.get_variable (gs : GameState) (name : String) : Option PyVal :=
  dictGet gs.game_variables name

/-! ### Numeric literal parsing (Python `int(...)` / `float(...)`)

Python's `int()` strips surrounding whitespace and accepts an optional sign
followed by at least one digit; `float()` additionally accepts a decimal
point and an exponent.  (Underscore digit separators, unicode digits and
the special float spellings inf/nan are not modelled; no theorem below
depends on that boundary.) -/

/-- Digits of a decimal literal. -/
def digitsToNat (cs : List Char) : Nat :=
  cs.foldl (fun acc c => acc * 10 + (c.toNat - '0'.toNat)) 0

/-- `int(s)` as a partial function. -/
def parsePyInt (s : String) : Option Int :=
  let t := trimChars s.toList
  let core (ds : List Char) (sign : Bool) : Option Int :=
    if ds ≠ [] ∧ ds.all Char.isDigit then
      some (if sign then -(digitsToNat ds : Int) else (digitsToNat ds : Int))
    else none
  match t with
  | '+' :: ds => core ds false
  | '-' :: ds => core ds true
  | ds => core ds false

/-- `float(s)` as a partial function producing a rational. -/
def parsePyFloat (s : String) : Option Rat :=
  let t := trimChars s.toList
  let split (ds : List Char) : Option (List Char × List Char) :=
    match ds.splitOn '.' with
    | [w] => if w ≠ [] ∧ w.all Char.isDigit then some (w, []) else none
    | [w, f] =>
      if (w ≠ [] ∨ f ≠ []) ∧ w.all Char.isDigit ∧ f.all Char.isDigit then
        some (w, f)
      else none
    | _ => none
  let mantissa (ds : List Char) (sign : Bool) : Option Rat :=
    (split ds).map fun p =>
      let v : Rat := (digitsToNat p.1 : Rat) +
        (digitsToNat p.2 : Rat) / ((10 : Rat) ^ p.2.length)
      if sign then -v else v
  let noExp (ds : List Char) : Option Rat :=
    match ds with
    | '+' :: rest => mantissa rest false
    | '-' :: rest => mantissa rest true
    | rest => mantissa rest false
  match t.splitOn 'e' with
  | [m] =>
    match m.splitOn 'E' with
    | [m1] => noExp m1
    | [m1, ex] => (noExp m1).bind fun v => (parsePyInt ⟨ex⟩).map fun n => v * (10 : Rat) ^ n
    | _ => none
  | [m, ex] => (noExp m).bind fun v => (parsePyInt ⟨ex⟩).map fun n => v * (10 : Rat) ^ n
  | _ => none

/-- The greedy value parser used by `set_stat` / `set_var` / `check_stat` /
`check_var`: try `int`, then `float`, otherwise keep the string. -/
def parseValueGreedy (s : String) : PyVal :=
  match parsePyInt s with
  | some n => .int n
  | none =>
    match parsePyFloat s with
    | some q => .float q
    | none => .str s

/-- `int(s)` as the engine calls it: a failure is Python's `ValueError`. -/
def pyInt (s : String) : Except PyErr Int :=
  match parsePyInt s with
  | some n => .ok n
  | none => .error (.valueError ("invalid literal for int() with base 10: " ++ s))

/-- `float(s)` as the engine calls it. -/
def pyFloat (s : String) : Except PyErr Rat :=
  match parsePyFloat s with
  | some q => .ok q
  | none => .error (.valueError ("could not convert string to float: " ++ s))

/-! ### Effects (effects.py)

Only the string-shorthand factory is embedded: it is the only way the
interpreter creates effects from a script (`FunctionEffect` and the dict
format are host-side only).  `CompoundEffect` is a list of effects applied
sequentially. -/

/-- The tagged effect variants producible by `Effect.create` on a string. -/
inductive Effect where
  | addItem (item : String) (quantity : Int)
  | removeItem (item : String) (quantity : Int)
  | setStat (stat : String) (value : PyVal)
  | addStat (stat : String) (value : PyVal)
  | setVar (var : String) (value : PyVal)
  deriving DecidableEq, Repr

/-- `Effect.create` on the colon-delimited shorthand string.  Mirrors the
source faithfully, including the exception class of each failure: an
unknown leading keyword raises the descriptive `ValueError`, an access to
a missing `parts[i]` raises `IndexError`, a non-numeric quantity raises
the `ValueError` of `int()`. -/
def Effect.create (effect_data : String) : Except PyErr Effect :=
  match pySplit effect_data ':' with
  | [] => .error .indexError
  | effect_type :: rest =>
    if effect_type = "add_item" then
      match rest with
      | [] => .error .indexError
      | [item] => .ok (.addItem item 1)
      | item :: q :: _ => (pyInt q).map (fun n => .addItem item n)
    else if effect_type = "remove_item" then
      match rest with
      | [] => .error .indexError
      | [item] => .ok (.removeItem item 1)
      | item :: q :: _ => (pyInt q).map (fun n => .removeItem item n)
    else if effect_type = "set_stat" then
      match rest with
      | [] => .error .indexError
      | [_] => .error .indexError
      | stat :: v :: _ => .ok (.setStat stat (parseValueGreedy v))
    else if effect_type = "add_stat" then
      match rest with
      | [] => .error .indexError
      | [_] => .error .indexError
      | stat :: v :: _ =>
        if v.toList.contains '.' then (pyFloat v).map (fun q => .addStat stat (.float q))
        else (pyInt v).map (fun n => .addStat stat (.int n))
    else if effect_type = "set_var" then
      match rest with
      | [] => .error .indexError
      | [_] => .error .indexError
      | var :: v :: _ => .ok (.setVar var (parseValueGreedy v))
    else .error (.valueError ("Unknown effect type: " ++ effect_type))

/-- `Effect.apply` of a single tagged effect; only `add_stat` can raise
(a `TypeError` from `+=` on mixed types). -/
def Effect.apply (e : Effect) (gs : GameState) : Except PyErr GameState :=
  match e with
  | .addItem item q => .ok (gs.add_to_inventory item q)
  | .removeItem item q => .ok (gs.remove_from_inventory item q).2
  | .setStat stat v => .ok (gs.update_stat stat v)
  | .addStat stat v => gs.increment_stat stat v
  | .setVar var v => .ok (gs.set_variable var v)

/-! ### Conditions (conditions.py) -/

/-- The tagged condition variants producible by `Condition.create` on a
string (the combinators and `FunctionCondition` exist only for the dict /
callable formats, which the interpreter never feeds from a script). -/
inductive Cond where
  | alwaysTrue
  | hasItem (item : String) (quantity : Int)
  | checkStat (stat : String) (value : PyVal) (comparison : String)
  | checkVar (var : String) (value : PyVal) (comparison : String)
  deriving DecidableEq, Repr

/-- `Condition.create` on the colon-delimited shorthand string; exception
classes mirror the source (`ValueError` for an unknown keyword or a bad
`int()`, `IndexError` for a missing `parts[i]`). -/
def Cond.create (condition_data : String) : Except PyErr Cond :=
  match pySplit condition_data ':' with
  | [] => .error .indexError
  | condition_type :: rest =>
    if condition_type = "has_item" then
      match rest with
      | [] => .error .indexError
      | [item] => .ok (.hasItem item 1)
      | item :: q :: _ => (pyInt q).map (fun n => .hasItem item n)
    else if condition_type = "check_stat" then
      match rest with
      | [] => .error .indexError
      | [_] => .error .indexError
      | [stat, v] => .ok (.checkStat stat (parseValueGreedy v) "==")
      | stat :: cmp :: v :: _ => .ok (.checkStat stat (parseValueGreedy v) cmp)
    else if condition_type = "check_var" then
      match rest with
      | [] => .error .indexError
      | [_] => .error .indexError
      | [var, v] => .ok (.checkVar var (parseValueGreedy v) "==")
      | var :: cmp :: v :: _ => .ok (.checkVar var (parseValueGreedy v) cmp)
    else .error (.valueError ("Unknown condition type: " ++ condition_type))

/-- `Condition.check` against a state; `check_stat` / `check_var` may raise
through comparison dispatch. -/
def Cond.check (c : Cond) (gs : GameState) : Except PyErr Bool :=
  match c with
  | .alwaysTrue => .ok true
  | .hasItem item q => .ok (gs.has_item item q)
  | .checkStat stat v cmp => gs.check_stat stat v cmp
  | .checkVar var v cmp =>
    match gs.get_variable var with
    | none => .ok false
    | some current => compareVals current v cmp

/-! ### Reachability through effect application (for the inventory invariant)

`CompoundEffect.apply` is sequential application of its sub-effects, and the
runner only ever applies effects one after the other to the live state, so
the states reachable "through Effect applications" are exactly the closure
of the empty state under single successful `Effect.apply` steps (a failing
`add_stat` leaves the state at the last successful step, which is itself in
the closure). -/

/-- States reachable from `GameState()` through successful applications of
string-creatable effects. -/
inductive ReachableBy (allowed : Effect → Prop) : GameState → Prop where
  | base : ReachableBy allowed GameState.init
  | step {gs gs' : GameState} {e : Effect} : ReachableBy allowed gs →
      allowed e → Effect.apply e gs = .ok gs' → ReachableBy allowed gs'

/-- Reachability with no restriction on the effects used (the claim's
notion). -/
def Reachable (gs : GameState) : Prop := ReachableBy (fun _ => True) gs

/-- An effect whose `add_item` quantity (if any) is strictly positive;
other effect kinds are unrestricted. -/
def Effect.posAdd : Effect → Prop
  | .addItem _ q => 0 < q
  | _ => True

/-- The claimed inventory invariant: every entry present holds a strictly
positive quantity. -/
def invPositive (gs : GameState) : Prop :=
  ∀ p ∈ gs.inventory, 0 < p.2

instance (gs : GameState) : Decidable (invPositive gs) := by
  unfold invPositive; infer_instance

/-- The state produced by `Effect.create "add_item:Gold:0"` applied to the
empty state: an inventory entry with quantity zero. -/
def gsGoldZero : GameState := ⟨[("Gold", 0)], [], []⟩

/-! ### Lexer (tales_lexer.py)

Lines are character lists, positions are indices into the line, exactly as
in the source.  (`Char.isWhitespace` covers the whitespace characters the
engine's scripts can contain; Python's `str.isspace` additionally accepts
`\x0b`/`\x0c` and some unicode spaces, which no theorem below touches.) -/

/-- `TokenType` of the lexer. -/
inductive TokenType where
  | UNKNOWN
  | SCENE
  | DIALOGUE
  | CHOICE
  | SEPARATOR
  | TRANSITION
  | TEXT
  | COMPARATOR
  | NUMBER
  | BOOLEAN
  | IF
  | ELSE
  | ENDIF
  | OPEN_BRACKET
  | CLOSE_BRACKET
  deriving DecidableEq, Repr

/-- A token: kind and literal text. -/
abbrev Token := TokenType × String

/-- The `ValueError`s the lexer raises, with the position its message
reports. -/
inductive LexErr where
  | unknownDirective (pos : Nat)
  | invalidDirective (pos : Nat)
  | unexpectedAfterDirective (pos : Nat)
  | missingWsDialogue (pos : Nat)
  | missingWsTransition (pos : Nat)
  | unexpectedBracketChar (pos : Nat)
  | unexpectedStartChar (pos : Nat)
  deriving DecidableEq, Repr

/-- `TalesLexer._look_ahead`. -/
def lookAhead (line : List Char) (pos length : Nat) : Option (List Char) :=
  if pos + length ≤ line.length then some ((line.drop pos).take length)
  else none

/-- `TalesLexer._skip_whitespace`. -/
def skipWsFrom (line : List Char) (pos : Nat) : Nat :=
  pos + ((line.drop pos).takeWhile Char.isWhitespace).length

/-- Python `str.lower()` (ASCII). -/
def pyLower (s : String) : String :=
  (s.toList.map Char.toLower).asString

/-- `TalesLexer.create_token`. -/
def createToken (token_type : TokenType) (value : String) : Token :=
  if token_type = TokenType.TEXT ∧ (pyLower value = "true" ∨ pyLower value = "false") then
    (TokenType.BOOLEAN, pyLower value)
  else (token_type, value)

/-- `NUMBER_RE`: `^[+-]?\d+(\.\d+)?$`. -/
def isNumberTok (cs : List Char) : Bool :=
  let body := match cs with
    | '+' :: rest => rest
    | '-' :: rest => rest
    | rest => rest
  match body.splitOn '.' with
  | [w] => !w.isEmpty && w.all Char.isDigit
  | [w, f] => !w.isEmpty && w.all Char.isDigit && !f.isEmpty && f.all Char.isDigit
  | _ => false

/-- `BOOLEAN_RE`: `^(true|false)$` (lower case only at this point). -/
def isBooleanTok (cs : List Char) : Bool :=
  cs = "true".toList || cs = "false".toList

/-- `COMPARATOR_RE`: `^(==|!=|<=|>=|<|>)$`. -/
def isComparatorTok (cs : List Char) : Bool :=
  ["==", "!=", "<=", ">=", "<", ">"].any (fun s => cs = s.toList)

/-- The inner `add_text_token` of `tokenize_line`: flush the accumulated
text (if any) as a number / boolean / comparator / text token. -/
def addTextToken (text : List Char) (tokens : List Token) : List Token :=
  if text.isEmpty then tokens
  else
    let t := trimChars text
    if isNumberTok t then tokens ++ [createToken TokenType.NUMBER t.asString]
    else if isBooleanTok t then tokens ++ [createToken TokenType.BOOLEAN t.asString]
    else if isComparatorTok t then tokens ++ [createToken TokenType.COMPARATOR t.asString]
    else tokens ++ [createToken TokenType.TEXT t.asString]

/-- `TalesLexer._handle_directives`. -/
def handleDirectives (line : List Char) (pos : Nat) :
    Except LexErr (Nat × Token) :=
  let after (directive_len : Nat) (tok : Token) : Except LexErr (Nat × Token) :=
    let pos2 := pos + directive_len
    match line.get? pos2 with
    | some c =>
      if c.isWhitespace then .ok (skipWsFrom line pos2, tok)
      else .error (.unexpectedAfterDirective pos2)
    | none => .ok (pos2, tok)
  if lookAhead line pos 6 = some "@scene".toList then
    after 6 (TokenType.SCENE, "@scene")
  else if lookAhead line pos 3 = some "@if".toList then
    after 3 (TokenType.IF, "@if")
  else if lookAhead line pos 5 = some "@else".toList then
    after 5 (TokenType.ELSE, "@else")
  else if lookAhead line pos 6 = some "@endif".toList then
    after 6 (TokenType.ENDIF, "@endif")
  else
    match line.get? pos, line.get? (pos + 1) with
    | some '@', some c =>
      if c.isAlpha ∨ c = '_' then .error (.unknownDirective pos)
      else .error (.invalidDirective pos)
    | _, _ => .error (.invalidDirective pos)

/-- `TalesLexer._handle_separator`. -/
def handleSeparator (line : List Char) (pos : Nat) : Nat × Token :=
  (skipWsFrom line (pos + 1), (TokenType.SEPARATOR, ":"))

/-- `TalesLexer._handle_bracket`. -/
def handleBracket (line : List Char) (pos : Nat) :
    Except LexErr (Nat × Token) :=
  match line.get? pos with
  | some '{' => .ok (skipWsFrom line (pos + 1), (TokenType.OPEN_BRACKET, "\x7b"))
  | some '}' => .ok (skipWsFrom line (pos + 1), (TokenType.CLOSE_BRACKET, "\x7d"))
  | _ => .error (.unexpectedBracketChar pos)

/-- `TalesLexer._handle_dialogue`: there has to be at least one whitespace
character after the `>` — reaching the end of the line instead is also the
error. -/
def handleDialogue (line : List Char) (pos : Nat) :
    Except LexErr (Nat × Token) :=
  match line.get? (pos + 1) with
  | some c =>
    if c.isWhitespace then .ok (skipWsFrom line (pos + 2), (TokenType.DIALOGUE, ">"))
    else .error (.missingWsDialogue pos)
  | none => .error (.missingWsDialogue pos)

/-- `TalesLexer._handle_choice`: counts the run of `*` and skips any
following whitespace; it has no whitespace requirement and no error
path. -/
def handleChoice (line : List Char) (pos : Nat) :
    Except LexErr (Nat × Token) :=
  let asterisks := 1 + ((line.drop (pos + 1)).takeWhile (· = '*')).length
  .ok (skipWsFrom line (pos + asterisks),
    (TokenType.CHOICE, (List.replicate asterisks '*').asString))

/-- `TalesLexer._handle_transition`: there has to be at least one
whitespace character after the `->` — reaching the end of the line instead
is also the error. -/
def handleTransition (line : List Char) (pos : Nat) :
    Except LexErr (Nat × Token) :=
  match line.get? (pos + 2) with
  | some c =>
    if c.isWhitespace then .ok (skipWsFrom line (pos + 2), (TokenType.TRANSITION, "->"))
    else .error (.missingWsTransition pos)
  | none => .error (.missingWsTransition pos)

/-- The main loop of `tokenize_line`; every iteration advances `pos`, so
fuel `line.length + 1` never runs out (the fuel-exhausted branch returns
the flushed tokens and is unreachable from `tokenizeLine`). -/
def tokenizeLineLoop (line : List Char) (initialPos : Nat) :
    Nat → Nat → List Char → List Token → Except LexErr (List Token)
  | 0, _, text, tokens => .ok (addTextToken text tokens)
  | fuel + 1, pos, text, tokens =>
    if h : pos < line.length then
      let c := line.get ⟨pos, h⟩
      if pos = initialPos then
        if c = '@' then
          match handleDirectives line pos with
          | .ok (pos2, tok) => tokenizeLineLoop line initialPos fuel pos2 text (tokens ++ [tok])
          | .error e => .error e
        else if c = '>' then
          match handleDialogue line pos with
          | .ok (pos2, tok) => tokenizeLineLoop line initialPos fuel pos2 text (tokens ++ [tok])
          | .error e => .error e
        else if c = '*' then
          match handleChoice line pos with
          | .ok (pos2, tok) => tokenizeLineLoop line initialPos fuel pos2 text (tokens ++ [tok])
          | .error e => .error e
        else .error (.unexpectedStartChar pos)
      else
        if c = ':' then
          let tokens1 := addTextToken text tokens
          let r := handleSeparator line pos
          tokenizeLineLoop line initialPos fuel r.1 [] (tokens1 ++ [r.2])
        else if c = '{' ∨ c = '}' then
          let tokens1 := addTextToken text tokens
          match handleBracket line pos with
          | .ok (pos2, tok) => tokenizeLineLoop line initialPos fuel pos2 [] (tokens1 ++ [tok])
          | .error e => .error e
        else if c = '-' ∧ lookAhead line pos 2 = some "->".toList then
          let tokens1 := addTextToken text tokens
          match handleTransition line pos with
          | .ok (pos2, tok) => tokenizeLineLoop line initialPos fuel pos2 [] (tokens1 ++ [tok])
          | .error e => .error e
        else if c = '/' ∧ lookAhead line pos 2 = some "//".toList then
          tokenizeLineLoop line initialPos fuel line.length text tokens
        else
          tokenizeLineLoop line initialPos fuel (pos + 1) (text ++ [c]) tokens
    else .ok (addTextToken text tokens)

/-- `TalesLexer.tokenize_line`. -/
def tokenizeLine (line : List Char) : Except LexErr (List Token) :=
  let initialPos := skipWsFrom line 0
  if initialPos = line.length ∨ lookAhead line initialPos 2 = some "//".toList then
    .ok []
  else tokenizeLineLoop line initialPos (line.length + 1) initialPos [] []

/-- `TalesLexer.tokenize`: per (1-based) line, dropping lines with no
tokens; the first lexing failure aborts the whole script with its line
number. -/
def tokenize (text : String) : Except (Nat × LexErr) (List (Nat × List Token)) :=
  let rec go : List (List Char) → Nat → Except (Nat × LexErr) (List (Nat × List Token))
    | [], _ => .ok []
    | l :: rest, n =>
      match tokenizeLine l with
      | .error e => .error (n, e)
      | .ok [] => go rest (n + 1)
      | .ok toks => (go rest (n + 1)).map (fun r => (n, toks) :: r)
  go (splitChars '\n' text.toList) 1

/-! ### Parser (tales_parser.py)

The AST element dataclasses of the source (`SceneElement`,
`DialogueElement`, `ChoiceElement`, `IfElement`) declare no `element_id`
and no `parent` field; the runner nevertheless reads both as dynamic
attributes.  The embedding therefore gives every element an
`element_id : Option String` field where `none` models the attribute being
absent (`hasattr` false / `getattr` default) — the parser only ever
constructs elements with `none` — and models the `parent` attribute
structurally, by position in the tree (which is what a consistent parent
pointer denotes). -/

/-- AST elements (`DialogueElement`, `ChoiceElement`, `IfElement`); the
`condition` of an `IfElement` is the `representation` string of the
source's placeholder `Condition` dataclass. -/
inductive PElem where
  | dialogue (element_id : Option String) (speaker : String)
      (dialogue_text : String) (effects : List String)
  | choice (element_id : Option String) (level : Nat) (text : String)
      (transition : Option String) (condition_str : Option String)
      (effects : List String)
  | ifElem (element_id : Option String) (condition : String)
      (if_block : List PElem) (else_block : Option (List PElem))

/-- `SceneElement`. -/
structure PScene where
  element_id : Option String
  scene_name : String
  content : List PElem

/-- The `ValueError`s of the parser (wrapped at each level with the line
number reported, mirroring the re-raise chain of the source). -/
inductive ParseErr where
  | unbalancedBracketsDialogue
  | unbalancedBracketsChoice
  | unexpectedAfterSceneName (tok : String)
  | invalidDialogueFormat
  | unexpectedAfterDialogue (tok : String)
  | missingChoiceText (marker : String)
  | multipleTransitions
  | missingDestination
  | unexpectedInChoice (tok : String)
  | expectedScene (tok : String)
  | unexpectedOutsideIf (tok : String)
  | unexpectedInScene (tok : String)
  | missingIfCondition (line : Nat)
  | internalIfError (line : Nat)
  | unexpectedElse (line : Nat)
  | tokensAfterElse (line : Nat)
  | tokensAfterEndif (line : Nat)
  | sceneInsideIf (line : Nat)
  | unexpectedInIf (line : Nat)
  | unterminatedIf (line : Nat)
  | parseContext (line : Nat) (e : ParseErr)
  | outOfFuel
  deriving DecidableEq, Repr

/-- `TalesParser._match_scene`: `@scene` + exactly one text token; a line
starting with `@scene` but not of that shape yields `none` (the caller
turns it into its own error), extra tokens are the error. -/
def matchScene (tokens : List Token) : Except ParseErr (Option PScene) :=
  match tokens with
  | (TokenType.SCENE, _) :: (TokenType.TEXT, scene_name) :: rest =>
    match rest with
    | [] => .ok (some ⟨none, scene_name, []⟩)
    | (_, v) :: _ => .error (.unexpectedAfterSceneName v)
  | _ => .ok none

/-- The effect-collecting loop of `TalesParser._match_dialogue` with the
bracket scanning of `_parse_bracket_content` fused in (`level` = current
bracket nesting depth, 0 = outside brackets, `acc` = the content parts of
the currently open bracket group).  Inside a group every token's literal
text is appended (including inner `{`/`}`), and at the closing bracket the
joined content is stripped — exactly `_parse_bracket_content`. -/
def dialogueEffectsLoop : List Token → Nat → List Char → List String →
    Except ParseErr (List String)
  | [], 0, _, fx => .ok fx
  | [], _ + 1, _, _ => .error .unbalancedBracketsDialogue
  | (tt, tv) :: rest, 0, _, fx =>
    if tt = TokenType.OPEN_BRACKET then dialogueEffectsLoop rest 1 [] fx
    else .error (.unexpectedAfterDialogue tv)
  | (tt, tv) :: rest, level + 1, acc, fx =>
    if tt = TokenType.OPEN_BRACKET then
      dialogueEffectsLoop rest (level + 2) (acc ++ tv.toList) fx
    else if tt = TokenType.CLOSE_BRACKET then
      if level = 0 then
        dialogueEffectsLoop rest 0 [] (fx ++ [(trimChars acc).asString])
      else dialogueEffectsLoop rest level (acc ++ tv.toList) fx
    else dialogueEffectsLoop rest (level + 1) (acc ++ tv.toList) fx

/-- `TalesParser._match_dialogue`. -/
def matchDialogue (tokens : List Token) : Except ParseErr (Option PElem) :=
  match tokens with
  | (TokenType.DIALOGUE, _) :: (TokenType.TEXT, speaker) ::
      (TokenType.SEPARATOR, _) :: (TokenType.TEXT, dialogue_text) :: rest =>
    (dialogueEffectsLoop rest 0 [] []).map
      (fun fx => some (.dialogue none speaker dialogue_text fx))
  | (TokenType.DIALOGUE, _) :: _ => .error .invalidDialogueFormat
  | _ => .ok none

/-- The scanning loop of `TalesParser._match_choice` (after the marker and
the choice text), with `_parse_bracket_content` fused in as above:
transitions and opening brackets are recognised only outside brackets, the
first bracket group closed becomes the condition (even if empty), every
later one an effect, a second transition is the error, and any other
token outside brackets is the error. -/
def choiceScan : List Token → Nat → Option String → Option String →
    List String → Bool → List Char →
    Except ParseErr (Option String × Option String × List String)
  | [], 0, dest, cond, fx, _, _ => .ok (dest, cond, fx)
  | [], _ + 1, _, _, _, _, _ => .error .unbalancedBracketsChoice
  | (TokenType.TRANSITION, _) :: rest, 0, dest, cond, fx, foundCond, _ =>
    match dest with
    | some _ => .error .multipleTransitions
    | none =>
      match rest with
      | (TokenType.TEXT, d) :: rest2 => choiceScan rest2 0 (some d) cond fx foundCond []
      | _ => .error .missingDestination
  | (TokenType.OPEN_BRACKET, _) :: rest, 0, dest, cond, fx, foundCond, _ =>
    choiceScan rest 1 dest cond fx foundCond []
  | (_, tv) :: _, 0, _, _, _, _, _ => .error (.unexpectedInChoice tv)
  | (TokenType.OPEN_BRACKET, tv) :: rest, level + 1, dest, cond, fx, foundCond, acc =>
    choiceScan rest (level + 2) dest cond fx foundCond (acc ++ tv.toList)
  | (TokenType.CLOSE_BRACKET, tv) :: rest, level + 1, dest, cond, fx, foundCond, acc =>
    if level = 0 then
      if foundCond then
        choiceScan rest 0 dest cond (fx ++ [(trimChars acc).asString]) true []
      else
        choiceScan rest 0 dest (some ((trimChars acc).asString)) fx true []
    else choiceScan rest level dest cond fx foundCond (acc ++ tv.toList)
  | (_, tv) :: rest, level + 1, dest, cond, fx, foundCond, acc =>
    choiceScan rest (level + 1) dest cond fx foundCond (acc ++ tv.toList)

/-- `TalesParser._match_choice`. -/
def matchChoice (tokens : List Token) : Except ParseErr (Option PElem) :=
  match tokens with
  | (TokenType.CHOICE, marker) :: rest =>
    match rest with
    | (TokenType.TEXT, choice_text) :: rest2 =>
      (choiceScan rest2 0 none none [] false []).map
        (fun r => some (.choice none marker.length choice_text r.1 r.2.1 r.2.2))
    | _ => .error (.missingChoiceText marker)
  | _ => .ok none

/-! The tail of a well-formed choice line, described abstractly: a sequence
of parts, each either a transition (`->` followed by a destination text
token) or a bracket group over inner tokens.  Rendering a part list gives
the token shapes the lexer produces after the choice marker and the choice
text; `partIsFlat` restricts bracket groups to ones without nested bracket
tokens (the shape every `{...}` block without literal inner braces
lexes to). -/

/-- One syntactic part of a choice line after the choice text. -/
inductive ChoiceLinePart where
  | toScene (dest : String)
  | brk (inner : List Token)

/-- Token rendering of one part. -/
def renderPart : ChoiceLinePart → List Token
  | .toScene dest => [(TokenType.TRANSITION, "->"), (TokenType.TEXT, dest)]
  | .brk inner =>
    (TokenType.OPEN_BRACKET, "\x7b") :: inner ++ [(TokenType.CLOSE_BRACKET, "\x7d")]

/-- Token rendering of a part list. -/
def renderParts (ps : List ChoiceLinePart) : List Token :=
  (ps.map renderPart).flatten

/-- A bracket group with no nested bracket tokens. -/
def partIsFlat : ChoiceLinePart → Bool
  | .toScene _ => true
  | .brk inner =>
    inner.all (fun t =>
      !(t.1 == TokenType.OPEN_BRACKET) && !(t.1 == TokenType.CLOSE_BRACKET))

/-- The tokens the lexer produces for `* Open the chest {has_item:Key:1}`. -/
def chestTokens1 : List Token :=
  [(TokenType.CHOICE, "*"), (TokenType.TEXT, "Open the chest"),
   (TokenType.OPEN_BRACKET, "\x7b"), (TokenType.TEXT, "has_item"),
   (TokenType.SEPARATOR, ":"), (TokenType.TEXT, "Key"),
   (TokenType.SEPARATOR, ":"), (TokenType.NUMBER, "1"),
   (TokenType.CLOSE_BRACKET, "\x7d")]

/-- The tokens the lexer produces for
`* Open the chest {} {add_item:Gold:50}`. -/
def chestTokens2 : List Token :=
  [(TokenType.CHOICE, "*"), (TokenType.TEXT, "Open the chest"),
   (TokenType.OPEN_BRACKET, "\x7b"), (TokenType.CLOSE_BRACKET, "\x7d"),
   (TokenType.OPEN_BRACKET, "\x7b"), (TokenType.TEXT, "add_item"),
   (TokenType.SEPARATOR, ":"), (TokenType.TEXT, "Gold"),
   (TokenType.SEPARATOR, ":"), (TokenType.NUMBER, "50"),
   (TokenType.CLOSE_BRACKET, "\x7d")]

/-- The verbatim content `_parse_bracket_content` extracts from a flat
bracket group: the concatenated literal text, stripped. -/
def brkContent (inner : List Token) : String :=
  (trimChars ((inner.map (fun t => t.2.toList)).flatten)).asString

/-- The transition destinations of a part list, in order. -/
def partTransitions (ps : List ChoiceLinePart) : List String :=
  ps.filterMap (fun p => match p with | .toScene d => some d | .brk _ => none)

/-- The bracket contents of a part list, in order. -/
def partContents (ps : List ChoiceLinePart) : List String :=
  ps.filterMap (fun p => match p with | .brk i => some (brkContent i) | .toScene _ => none)

/-- `TalesParser._parse_condition` for an `@if` line: the concatenated
literal text of the remaining tokens becomes the `Condition`
`representation`. -/
def parseIfCondition (condition_tokens : List Token) : String :=
  ((condition_tokens.map (fun t => t.2.toList)).flatten).asString

mutual

/-- The body loop of `TalesParser.parse_scene`: consumes lines until a new
`@scene` line or the end of input, appending parsed elements to the scene
content.  `fuel` only bounds the recursion; every recursive call either
advances the line index or enters `parseIfBlock` which consumes at least
one line, so any fuel above twice the line count is never exhausted. -/
def parseSceneBody (lines : List (Nat × List Token)) :
    Nat → Nat → PScene → Except ParseErr (Nat × PScene)
  | 0, _, _ => .error .outOfFuel
  | fuel + 1, idx, scene =>
    match lines.get? idx with
    | none => .ok (idx, scene)
    | some (lineNum, tokens) =>
      match tokens.head? with
      | none => parseSceneBody lines fuel (idx + 1) scene
      | some (firstType, firstVal) =>
        if firstType = TokenType.SCENE then .ok (idx, scene)
        else if firstType = TokenType.IF then
          match parseIfBlock lines fuel idx with
          | .ok (elem, consumed) =>
            parseSceneBody lines fuel (idx + consumed)
              { scene with content := scene.content ++ [elem] }
          | .error e => .error (.parseContext lineNum e)
        else if firstType = TokenType.DIALOGUE then
          match matchDialogue tokens with
          | .ok (some elem) =>
            parseSceneBody lines fuel (idx + 1)
              { scene with content := scene.content ++ [elem] }
          | .ok none => .error (.parseContext lineNum (.unexpectedInScene firstVal))
          | .error e => .error (.parseContext lineNum e)
        else if firstType = TokenType.CHOICE then
          match matchChoice tokens with
          | .ok (some elem) =>
            parseSceneBody lines fuel (idx + 1)
              { scene with content := scene.content ++ [elem] }
          | .ok none => .error (.parseContext lineNum (.unexpectedInScene firstVal))
          | .error e => .error (.parseContext lineNum e)
        else if firstType = TokenType.ELSE ∨ firstType = TokenType.ENDIF then
          .error (.parseContext lineNum (.unexpectedOutsideIf firstVal))
        else .error (.parseContext lineNum (.unexpectedInScene firstVal))

/-- `TalesParser._parse_if_block`: reads the `@if` line, then delegates to
`parseIfBody`. -/
def parseIfBlock (lines : List (Nat × List Token)) :
    Nat → Nat → Except ParseErr (PElem × Nat)
  | 0, _ => .error .outOfFuel
  | fuel + 1, start_idx =>
    match lines.get? start_idx with
    | none => .error .outOfFuel
    | some (initLineNum, if_tokens) =>
      match if_tokens with
      | (TokenType.IF, _) :: condToks =>
        match condToks with
        | [] => .error (.missingIfCondition initLineNum)
        | _ =>
          parseIfBody lines fuel (start_idx + 1) initLineNum 1 true
            (parseIfCondition condToks) [] none
      | _ => .error (.internalIfError initLineNum)

/-- The body loop of `_parse_if_block`: `consumed` counts processed lines
(the loop adds one per line, and for nested blocks the nested count minus
the one already added); `parsingIf` selects the active branch. -/
def parseIfBody (lines : List (Nat × List Token)) :
    Nat → Nat → Nat → Nat → Bool → String → List PElem →
    Option (List PElem) → Except ParseErr (PElem × Nat)
  | 0, _, _, _, _, _, _, _ => .error .outOfFuel
  | fuel + 1, idx, initLineNum, consumed, parsingIf, cond, ifblk, elseblk =>
    match lines.get? idx with
    | none => .error (.unterminatedIf initLineNum)
    | some (lineNum, tokens) =>
      match tokens.head? with
      | none =>
        parseIfBody lines fuel (idx + 1) initLineNum (consumed + 1) parsingIf
          cond ifblk elseblk
      | some (firstType, _) =>
        if firstType = TokenType.ELSE then
          if ¬parsingIf then .error (.unexpectedElse lineNum)
          else if tokens.length > 1 then .error (.tokensAfterElse lineNum)
          else
            parseIfBody lines fuel (idx + 1) initLineNum (consumed + 1) false
              cond ifblk (some [])
        else if firstType = TokenType.ENDIF then
          if tokens.length > 1 then .error (.tokensAfterEndif lineNum)
          else .ok (.ifElem none cond ifblk elseblk, consumed + 1)
        else if firstType = TokenType.IF then
          match parseIfBlock lines fuel idx with
          | .ok (nested, n) =>
            if parsingIf then
              parseIfBody lines fuel (idx + n) initLineNum (consumed + n)
                parsingIf cond (ifblk ++ [nested]) elseblk
            else
              parseIfBody lines fuel (idx + n) initLineNum (consumed + n)
                parsingIf cond ifblk (some (elseblk.getD [] ++ [nested]))
          | .error e => .error (.parseContext lineNum e)
        else if firstType = TokenType.DIALOGUE then
          match matchDialogue tokens with
          | .ok (some elem) =>
            if parsingIf then
              parseIfBody lines fuel (idx + 1) initLineNum (consumed + 1)
                parsingIf cond (ifblk ++ [elem]) elseblk
            else
              parseIfBody lines fuel (idx + 1) initLineNum (consumed + 1)
                parsingIf cond ifblk (some (elseblk.getD [] ++ [elem]))
          | .ok none => .error (.unexpectedInIf lineNum)
          | .error e => .error (.parseContext lineNum e)
        else if firstType = TokenType.CHOICE then
          match matchChoice tokens with
          | .ok (some elem) =>
            if parsingIf then
              parseIfBody lines fuel (idx + 1) initLineNum (consumed + 1)
                parsingIf cond (ifblk ++ [elem]) elseblk
            else
              parseIfBody lines fuel (idx + 1) initLineNum (consumed + 1)
                parsingIf cond ifblk (some (elseblk.getD [] ++ [elem]))
          | .ok none => .error (.unexpectedInIf lineNum)
          | .error e => .error (.parseContext lineNum e)
        else if firstType = TokenType.SCENE then
          .error (.sceneInsideIf lineNum)
        else .error (.unexpectedInIf lineNum)

end

/-- The top-level loop of `TalesParser.parse`. -/
def parseTop (lines : List (Nat × List Token)) :
    Nat → Nat → List PScene → Except ParseErr (List PScene)
  | 0, _, _ => .error .outOfFuel
  | fuel + 1, idx, ast =>
    match lines.get? idx with
    | none => .ok ast
    | some (lineNum, tokens) =>
      match tokens.head? with
      | none => parseTop lines fuel (idx + 1) ast
      | some (_, firstVal) =>
        match matchScene tokens with
        | .ok (some scene) =>
          match parseSceneBody lines fuel (idx + 1) scene with
          | .ok (nextIdx, populated) => parseTop lines fuel nextIdx (ast ++ [populated])
          | .error e => .error (.parseContext lineNum e)
        | .ok none => .error (.parseContext lineNum (.expectedScene firstVal))
        | .error e => .error (.parseContext lineNum e)

/-- `TalesParser.parse` (the fuel bound is far above what the loops can
consume: they advance by at least one line every two calls). -/
def parseTales (lines : List (Nat × List Token)) : Except ParseErr (List PScene) :=
  parseTop lines (4 * lines.length + 4) 0 []

/-! ### The runner's element map (`TalesRunner._build_element_map`) and the
absence of identifiers in the parser's output -/

/-- An element has no `element_id` attribute set anywhere in its subtree
(the parser's constructors only ever produce such elements). -/
inductive IdsNone : PElem → Prop where
  | dialogue (speaker dialogue_text : String) (effects : List String) :
      IdsNone (.dialogue none speaker dialogue_text effects)
  | choice (level : Nat) (text : String) (transition condition_str : Option String)
      (effects : List String) :
      IdsNone (.choice none level text transition condition_str effects)
  | ifElem (condition : String) (if_block : List PElem)
      (else_block : Option (List PElem))
      (h1 : ∀ e ∈ if_block, IdsNone e)
      (h2 : ∀ e ∈ else_block.getD [], IdsNone e) :
      IdsNone (.ifElem none condition if_block else_block)

/-- A scene all of whose elements (itself included) carry no identifier. -/
def sceneIdsNone (s : PScene) : Prop :=
  s.element_id = none ∧ ∀ e ∈ s.content, IdsNone e

/-- The queue entries of `_build_element_map` (it holds both the top-level
`SceneElement`s and nested elements). -/
inductive AnyElem where
  | scene (s : PScene)
  | elem (e : PElem)

/-- `element.element_id` as the runner reads it: `none` when the attribute
was never assigned (`hasattr` false). -/
def elemIdOf : AnyElem → Option String
  | .scene s => s.element_id
  | .elem (.dialogue eid _ _ _) => eid
  | .elem (.choice eid _ _ _ _ _) => eid
  | .elem (.ifElem eid _ _ _) => eid

/-- The children `_build_element_map` enqueues for a mapped element. -/
def childrenOf : AnyElem → List AnyElem
  | .scene s => s.content.map .elem
  | .elem (.ifElem _ _ if_block else_block) =>
    if_block.map .elem ++ (else_block.getD []).map .elem
  | .elem _ => []

/-- The queue loop of `TalesRunner._build_element_map`: an element with a
(non-`None`) stable id is put in the map (overwriting a duplicate id) and
its children enqueued; an element without one is only logged as a warning —
its children are not even enqueued.  `fuel` bounds the loop; it is
irrelevant whenever no element carries an id (the queue then only
shrinks). -/
def buildElementMapLoop : Nat → List AnyElem → List (String × AnyElem) →
    List (String × AnyElem)
  | 0, _, m => m
  | _ + 1, [], m => m
  | fuel + 1, q :: queue, m =>
    match elemIdOf q with
    | some eid => buildElementMapLoop fuel (queue ++ childrenOf q) (dictSet m eid q)
    | none => buildElementMapLoop fuel queue m

/-- `TalesRunner._build_element_map` run on a parsed AST. -/
def buildElementMap (fuel : Nat) (ast : List PScene) : List (String × AnyElem) :=
  buildElementMapLoop fuel (ast.map .scene) []

/-- The failing input for the identifier claim: a small script exercising
scene content and an `@if` block. -/
def demoScript : String :=
  "@scene intro\n> A: Hi\n* Go {x}\n@if has_item:Key\n> B: Yo\n@endif"

/-- The token lines the lexer produces for `demoScript`. -/
def demoLines : List (Nat × List Token) :=
  [(1, [(TokenType.SCENE, "@scene"), (TokenType.TEXT, "intro")]),
   (2, [(TokenType.DIALOGUE, ">"), (TokenType.TEXT, "A"),
        (TokenType.SEPARATOR, ":"), (TokenType.TEXT, "Hi")]),
   (3, [(TokenType.CHOICE, "*"), (TokenType.TEXT, "Go"),
        (TokenType.OPEN_BRACKET, "\x7b"), (TokenType.TEXT, "x"),
        (TokenType.CLOSE_BRACKET, "\x7d")]),
   (4, [(TokenType.IF, "@if"), (TokenType.TEXT, "has_item"),
        (TokenType.SEPARATOR, ":"), (TokenType.TEXT, "Key")]),
   (5, [(TokenType.DIALOGUE, ">"), (TokenType.TEXT, "B"),
        (TokenType.SEPARATOR, ":"), (TokenType.TEXT, "Yo")]),
   (6, [(TokenType.ENDIF, "@endif")])]

/-- The AST `TalesParser.parse` builds for `demoScript`: every element is
constructed without any `element_id` (and no parent attribute). -/
def demoAst : List PScene :=
  [⟨none, "intro",
    [.dialogue none "A" "Hi" [],
     .choice none 1 "Go" none (some "x") [],
     .ifElem none "has_item:Key" [.dialogue none "B" "Yo" []] none]⟩]

/-! ### The runner's state, history and undo (tales_runner.py)

`TalesRunner` keeps a live `GameState` object and a history list of
`(game_state.to_dict(), executed_element_id)` pairs.  In CPython,
`to_dict` builds a fresh outer dict whose three values are *references to
the live inner dictionaries* (`self.inventory`, `self.stats`,
`self.game_variables`), and `from_dict` builds a `GameState` whose three
attributes are again references to the given inner dictionaries.  All
`GameState` mutators update those inner dictionaries in place and never
rebind the attributes.  This reference structure is modelled by an explicit
heap: three stores of dictionaries indexed by `Nat`, a `GameState` object
being a triple of indices, and a history snapshot being exactly such a
triple (the outer dict adds no observable structure). -/

/-- The heap of inner dictionaries. -/
structure Heap where
  invStore : List (List (String × Int))
  statStore : List (List (String × PyVal))
  varStore : List (List (String × PyVal))
  deriving DecidableEq, Repr

/-- A `GameState` object: references to its three inner dictionaries.
`to_dict` yields exactly this triple, and `from_dict` turns the triple back
into a (aliasing) `GameState`. -/
structure GSRef where
  inv : Nat
  stat : Nat
  var : Nat
  deriving DecidableEq, Repr

/-- Read the dictionary values a `GameState` object currently denotes. -/
def derefState (h : Heap) (r : GSRef) : GameState :=
  ⟨h.invStore.getD r.inv [], h.statStore.getD r.stat [], h.varStore.getD r.var []⟩

/-- Write the three dictionaries of a state back to their heap cells
(the cells a mutator did not touch are rewritten with their unchanged
value, which is the identity on the store). -/
def writeState (h : Heap) (r : GSRef) (gs : GameState) : Heap :=
  ⟨h.invStore.set r.inv gs.inventory, h.statStore.set r.stat gs.stats,
    h.varStore.set r.var gs.game_variables⟩

/-- In-place application of one effect to the `GameState` object `r`. -/
def applyEffectH (e : Effect) (h : Heap) (r : GSRef) : Except PyErr Heap :=
  (Effect.apply e (derefState h r)).map (writeState h r)

/-- Sequential in-place application (a single effect, or
`CompoundEffect.apply`): an exception aborts the remaining effects but the
mutations already made stay — the runner catches the exception after the
partial application. -/
def applyEffectListH : List Effect → Heap → GSRef → Heap
  | [], h, _ => h
  | e :: rest, h, r =>
    match applyEffectH e h r with
    | .ok h2 => applyEffectListH rest h2 r
    | .error _ => h

/-- The runner state touched by effects, history and undo: the heap, the
live `GameState` object, the history stack of
`(to_dict snapshot, executed element id)` pairs, and the current element
id. -/
structure RunnerSt where
  heap : Heap
  gs : GSRef
  history : List (GSRef × Option String)
  current : Option String
  deriving DecidableEq, Repr

/-- `TalesRunner._save_history_snapshot`: appends
`(self.game_state.to_dict(), executed_element_id)` — under CPython
semantics the snapshot aliases the live inner dictionaries, so the entry
is exactly the current reference triple. -/
def saveHistorySnapshot (st : RunnerSt) (executed_element_id : Option String) :
    RunnerSt :=
  { st with history := st.history ++ [(st.gs, executed_element_id)] }

/-- `TalesRunner._apply_effects` on raw effect strings: parse each with
`Effect.create` (any parse exception — `ValueError` at line 294 or any
other class at line 296 — is logged and the string skipped); if nothing
parsed, return; otherwise save a history snapshot and apply the effects
(as a single effect or a `CompoundEffect`) to the live state. -/
def applyEffectsR (st : RunnerSt) (effect_sources : List String)
    (context_element_id : Option String) : RunnerSt :=
  let effects_to_apply :=
    effect_sources.filterMap (fun s => (Effect.create (pyStrip s)).toOption)
  if effects_to_apply.isEmpty then st
  else
    let st1 := saveHistorySnapshot st context_element_id
    { st1 with heap := applyEffectListH effects_to_apply st1.heap st1.gs }

/-- `TalesRunner.undo`: with one history entry or fewer, reports
"Cannot undo further." and returns with the state untouched; otherwise
pops the last entry, restores the game state with
`GameState.from_dict` of the entry now on top (which, under CPython
semantics, aliases the dictionaries that triple refers to) and sets the
current element id to the id recorded in that entry.  (The source wraps
the body in `try/except`; no statement in it can raise once the length
guard has passed, the dead handler would set the current id to `None`.) -/
def undoR (st : RunnerSt) : RunnerSt :=
  if st.history.length ≤ 1 then st
  else
    let h2 := st.history.dropLast
    match h2.getLast? with
    | some entry => { st with history := h2, gs := entry.1, current := entry.2 }
    | none => { st with history := h2, current := none }

/-- The state/history component of a freshly initialised `TalesRunner`:
a fresh empty `GameState` (three fresh empty inner dictionaries) and the
initial `_save_history_snapshot(None)`. -/
def initialRunnerSt : RunnerSt :=
  { heap := ⟨[[]], [[]], [[]]⟩, gs := ⟨0, 0, 0⟩,
    history := [(⟨0, 0, 0⟩, none)], current := none }

/-- The runner state after the single effect-applying action
`_apply_effects(["add_item:Gold:1"], "e1")` from the initial state. -/
def stAfterGold : RunnerSt :=
  applyEffectsR initialRunnerSt ["add_item:Gold:1"] (some "e1")

/-- The runner state after undoing that action. -/
def stUndone : RunnerSt := undoR stAfterGold

/-! ### Structural navigation (`TalesRunner._get_next_sequential_element_id`)

The runner navigates through `element.parent` attributes that a correctly
parented AST carries (its stated precondition: "AST has stable IDs and
parent refs").  A consistent parent pointer of an element is exactly the
scene content list or if-branch that directly holds it, so the embedding
computes the successor structurally: the next sibling's id when there is
one, otherwise the successor of the enclosing `IfElement` (recursively),
and `none` when the enclosing container is a scene. -/

/-- `element.element_id` of an AST element (`none` = attribute absent). -/
def idOfElem : PElem → Option String
  | .dialogue eid _ _ _ => eid
  | .choice eid _ _ _ _ _ => eid
  | .ifElem eid _ _ _ => eid

mutual

/-- Successor of the element with id `x` inside a container list whose own
successor is `after`: `some r` when `x` names an element of this subtree
(`r` being `_get_next_sequential_element_id`'s answer), `none` when `x`
does not occur here. -/
def succInList : List PElem → String → Option String → Option (Option String)
  | [], _, _ => none
  | e :: rest, x, after =>
    let afterE : Option String :=
      match rest.head? with
      | some e2 => idOfElem e2
      | none => after
    if idOfElem e = some x then some afterE
    else
      match succInElem e x afterE with
      | some r => some r
      | none => succInList rest x after

/-- Successor search inside one element's branches; `afterSelf` is the
successor of the element itself (used when a branch runs out — the
runner's `_get_element_id_after_container`). -/
def succInElem : PElem → String → Option String → Option (Option String)
  | .dialogue _ _ _ _, _, _ => none
  | .choice _ _ _ _ _ _, _, _ => none
  | .ifElem _ _ if_block else_block, x, afterSelf =>
    match succInList if_block x afterSelf with
    | some r => some r
    | none =>
      match else_block with
      | some eb => succInList eb x afterSelf
      | none => none

end

/-- `_get_next_sequential_element_id` over the whole AST: a top-level scene
has no parent, so running off the end of its content ends the sequence. -/
def nextSeqId : List PScene → String → Option String
  | [], _ => none
  | s :: rest, x =>
    match succInList s.content x none with
    | some r => r
    | none => nextSeqId rest x

mutual

/-- All `element_id`s of a subtree, in tree order. -/
def idsInElem : PElem → List String
  | .dialogue eid _ _ _ => eid.toList
  | .choice eid _ _ _ _ _ => eid.toList
  | .ifElem eid _ if_block else_block =>
    eid.toList ++ idsInList if_block ++ idsInListOpt else_block

/-- All `element_id`s of an optional else-branch. -/
def idsInListOpt : Option (List PElem) → List String
  | some l => idsInList l
  | none => []

/-- All `element_id`s of a list of subtrees. -/
def idsInList : List PElem → List String
  | [] => []
  | e :: rest => idsInElem e ++ idsInList rest

end

/-! ### `TalesRunner._execute_if` and `_execute_dialogue` -/

/-- `TalesRunner._execute_if` (given the fields of the `IfElement`): a
`ValueError` from `Condition.create`/`check` is caught and the whole If
skipped (the successor of the If element); any other exception — such as
the `IndexError` a known keyword with too few fields raises — falls into
the generic handler, which returns `None` and thereby halts execution.
Reads the live game state of the runner. -/
def executeIf (ast : List PScene) (st : RunnerSt) (element_id : String)
    (condition_repr : String) (if_block : List PElem)
    (else_block : Option (List PElem)) : Option String :=
  match Cond.create (pyStrip condition_repr) with
  | .error (.valueError _) => nextSeqId ast element_id
  | .error _ => none
  | .ok c =>
    match c.check (derefState st.heap st.gs) with
    | .error (.valueError _) => nextSeqId ast element_id
    | .error _ => none
    | .ok true =>
      match if_block with
      | [] => nextSeqId ast element_id
      | e :: _ => idOfElem e
    | .ok false =>
      match else_block with
      | some [] => nextSeqId ast element_id
      | some (e :: _) => idOfElem e
      | none => nextSeqId ast element_id

/-- `TalesRunner._execute_dialogue`: display (not modelled), apply the
effect strings (each malformed one skipped inside `_apply_effects`), and
return the structural successor — the element always completes. -/
def executeDialogue (ast : List PScene) (st : RunnerSt) (element_id : String)
    (effects : List String) : RunnerSt × Option String :=
  (applyEffectsR st effects (some element_id), nextSeqId ast element_id)

/-- A concrete parented AST for the If claims: an `@if has_item` (a known
keyword with too few colon-delimited fields) followed by a dialogue. -/
def ifDemoAst : List PScene :=
  [⟨some "s0", "intro",
    [.ifElem (some "e0") "has_item" [.dialogue (some "e1") "A" "Hi" []] none,
     .dialogue (some "e2") "B" "Bye" []]⟩]

/-! ### `TalesRunner._handle_choice_start` -/

/-- Is the element a `ChoiceElement`? (`isinstance(_, ChoiceElement)`). -/
def isChoiceElem : PElem → Bool
  | .choice _ _ _ _ _ _ => true
  | _ => false

/-- The choice text of an element. -/
def textOf : PElem → String
  | .choice _ _ text _ _ _ => text
  | _ => ""

mutual

/-- The container list (scene content or if-branch) directly holding the
element with id `x`, searching one element's branches — the denotation of
`element.parent`'s container under consistent parent pointers. -/
def findContainerElem : PElem → String → Option (List PElem)
  | .ifElem _ _ if_block else_block, x =>
    if if_block.any (fun e => idOfElem e = some x) then some if_block
    else
      match findContainerList if_block x with
      | some c => some c
      | none =>
        match else_block with
        | some eb =>
          if eb.any (fun e => idOfElem e = some x) then some eb
          else findContainerList eb x
        | none => none
  | _, _ => none

/-- Container search under each element of a list. -/
def findContainerList : List PElem → String → Option (List PElem)
  | [], _ => none
  | e :: rest, x =>
    match findContainerElem e x with
    | some c => some c
    | none => findContainerList rest x

end

/-- The container of the element with id `x` in the AST. -/
def containerOf : List PScene → String → Option (List PElem)
  | [], _ => none
  | s :: rest, x =>
    if s.content.any (fun e => idOfElem e = some x) then some s.content
    else
      match findContainerList s.content x with
      | some c => some c
      | none => containerOf rest x

/-- The retained data of the TAE `Choice` object `_handle_choice_start`
builds for an available choice: its pre-parsed effects (`[]` models
`_effect = None`) and its transition target. -/
structure TaeChoice where
  effects : List Effect
  next_scene : Option String

/-- Availability of one choice: a condition string that is `None` or empty
is skipped (always available); `Condition.create`+`check` inside
`try/except ValueError` — a `ValueError` makes the choice unavailable, any
other exception propagates out of `_handle_choice_start`. -/
def evalChoiceAvailability (gs : GameState) (condition_str : Option String) :
    Except PyErr Bool :=
  match condition_str with
  | none => .ok true
  | some s =>
    if s = "" then .ok true
    else
      match Cond.create (pyStrip s) with
      | .error (.valueError _) => .ok false
      | .error e => .error e
      | .ok c =>
        match c.check gs with
        | .error (.valueError _) => .ok false
        | .error e => .error e
        | .ok b => .ok b

/-- The effect-parsing loop inside the `Choice`-object construction: empty
or whitespace-only strings are skipped, a `ValueError` from
`Effect.create` skips that string, and any other exception (the
`IndexError` of a known keyword with too few fields) escapes to the outer
`except Exception` handler of the choice. -/
def parseChoiceEffects : List String → Except PyErr (List Effect)
  | [] => .ok []
  | s :: rest =>
    if s = "" ∨ pyStrip s = "" then parseChoiceEffects rest
    else
      match Effect.create (pyStrip s) with
      | .ok e => (parseChoiceEffects rest).map (fun fx => e :: fx)
      | .error (.valueError _) => parseChoiceEffects rest
      | .error e => .error e

/-- Processing of one group member: its availability flag for the UI and,
when available and its `Choice` object could be built, the retained
`TaeChoice`; a failure inside the object construction flips the UI flag to
unavailable (the source's outer `except Exception` around the `Choice`
creation). -/
def choiceEntry (gs : GameState) : PElem → Except PyErr (Bool × Option TaeChoice)
  | .choice _ _ _ transition condition_str effects =>
    match evalChoiceAvailability gs condition_str with
    | .error e => .error e
    | .ok false => .ok (false, none)
    | .ok true =>
      match parseChoiceEffects effects with
      | .ok fx => .ok (true, some ⟨fx, transition⟩)
      | .error _ => .ok (false, none)
  | _ => .ok (false, none)

/-- The evaluation loop over the choice group: the `(id, text, available)`
triples handed to `ui.prompt_choice` and the `available_choice_objects`
map. -/
def buildChoiceEntries (gs : GameState) :
    List PElem → Except PyErr (List (String × String × Bool) × List (String × TaeChoice))
  | [] => .ok ([], [])
  | c :: rest =>
    match choiceEntry gs c with
    | .error e => .error e
    | .ok (avail, entry) =>
      (buildChoiceEntries gs rest).map (fun r =>
        (((idOfElem c).getD "", textOf c, avail) :: r.1,
          match entry with
          | some tc => ((idOfElem c).getD "", tc) :: r.2
          | none => r.2))

/-- `_apply_effects` when handed pre-parsed `Effect` objects (the chosen
choice's `_effect`): nothing to parse, so a snapshot is pushed and the
effects applied exactly when the list is non-empty. -/
def applyEffectsObjR (st : RunnerSt) (effects : List Effect)
    (context_element_id : Option String) : RunnerSt :=
  if effects.isEmpty then st
  else
    let st1 := saveHistorySnapshot st context_element_id
    { st1 with heap := applyEffectListH effects st1.heap st1.gs }

/-- The first content element's id of the named scene (the transition
lookup in `_handle_choice_start`): the first scene with that name wins;
an empty scene yields `none` (the caller then falls back to the
sequential successor). -/
def findSceneStart : List PScene → String → Option String
  | [], _ => none
  | s :: rest, name =>
    if s.scene_name = name then
      match s.content.head? with
      | some e => idOfElem e
      | none => none
    else findSceneStart rest name

/-- The UI's meta-command strings. -/
def metaCommands : List String := ["save", "load", "undo", "quit", "next"]

/-- `TalesRunner._handle_choice_start`: collect the maximal run of
consecutive `ChoiceElement` siblings starting at the given element,
evaluate each, prompt the UI (its answer is `resp`: an element id, a
meta-command string, or `None`), and dispatch.  Returns the presented
`(id, text, available)` list, the updated runner state, and the next
element id or command. -/
def handleChoiceStart (ast : List PScene) (st : RunnerSt) (firstElem : PElem)
    (resp : Option String) :
    Except PyErr (List (String × String × Bool) × RunnerSt × Option String) :=
  let firstId := (idOfElem firstElem).getD ""
  let group : List PElem :=
    match containerOf ast firstId with
    | none => [firstElem]
    | some container =>
      match container.findIdx? (fun e => idOfElem e = some firstId) with
      | none => [firstElem]
      | some i => firstElem :: (container.drop (i + 1)).takeWhile isChoiceElem
  let lastId : String :=
    (match group.getLast? with
     | some e => idOfElem e
     | none => none).getD ""
  match buildChoiceEntries (derefState st.heap st.gs) group with
  | .error e => .error e
  | .ok (ui_choices, availMap) =>
    if resp = some "save" ∨ resp = some "load" ∨ resp = some "undo" ∨
        resp = some "quit" ∨ resp = some "next" ∨ resp = none then
      .ok (ui_choices, st,
        match resp with
        | some cmd => some cmd
        | none => nextSeqId ast lastId)
    else
      match resp with
      | none => .ok (ui_choices, st, nextSeqId ast lastId)
      | some chosen_id =>
        match dictGet availMap chosen_id with
        | none => .ok (ui_choices, st, nextSeqId ast lastId)
        | some tc =>
          let st2 := applyEffectsObjR st tc.effects (some chosen_id)
          match tc.next_scene with
          | none => .ok (ui_choices, st2, nextSeqId ast lastId)
          | some target =>
            match findSceneStart ast target with
            | some startId => .ok (ui_choices, st2, some startId)
            | none => .ok (ui_choices, st2, nextSeqId ast lastId)

/-- The availability flag `_handle_choice_start` ends up with for one
group member (the projection of `choiceEntry` the theorems quote). -/
def choiceAvail (gs : GameState) (e : PElem) : Bool :=
  match choiceEntry gs e with
  | .ok (b, _) => b
  | .error _ => false

/-- The `available_choice_objects` entry for one group member. -/
def choiceAvailEntry (gs : GameState) (e : PElem) : Option TaeChoice :=
  match choiceEntry gs e with
  | .ok (_, o) => o
  | .error _ => none

/-- The spec's choice-grouping example: three consecutive choices between
two dialogue lines (the second condition is unmet in the empty state). -/
def choiceDemoAst : List PScene :=
  [⟨some "s0", "main",
    [.dialogue (some "d0") "N" "Pick" [],
     .choice (some "c1") 1 "Go north" none none [],
     .choice (some "c2") 1 "Go south" none (some "has_item:Key") [],
     .choice (some "c3") 1 "Give up" none none ["add_item:Gold:5"],
     .dialogue (some "d1") "N" "Done" []]⟩]

/-- The first choice of the demo group. -/
def c1Elem : PElem := .choice (some "c1") 1 "Go north" none none []

/-- The second choice of the demo group. -/
def c2Elem : PElem := .choice (some "c2") 1 "Go south" none (some "has_item:Key") []

/-- The third choice of the demo group. -/
def c3Elem : PElem := .choice (some "c3") 1 "Give up" none none ["add_item:Gold:5"]

/-! ## Theorems -/

/-! ### Dictionary lemmas -/

theorem dictGet_dictSet_self {α : Type} (d : List (String × α)) (k : String)
    (v : α) : dictGet (dictSet d k v) k = some v := by
  induction d with
  | nil => simp [dictSet, dictGet]
  | cons p rest ih =>
    by_cases h : p.1 = k
    · simp [dictSet, dictGet, h]
    · simp [dictSet, dictGet, h, ih]

theorem dictGet_dictSet_ne {α : Type} (d : List (String × α)) (k k' : String)
    (v : α) (h : k' ≠ k) : dictGet (dictSet d k v) k' = dictGet d k' := by
  have h2 : k ≠ k' := Ne.symm h
  induction d with
  | nil => simp [dictSet, dictGet, h2]
  | cons p rest ih =>
    by_cases h0 : p.1 = k
    · subst h0
      simp [dictSet, dictGet, h2, Ne.symm h2]
    · by_cases h1 : p.1 = k'
      · simp [dictSet, dictGet, h0, h1, h, h2]
      · simp [dictSet, dictGet, h0, h1, ih]

theorem dictGet_dictDel_ne {α : Type} (d : List (String × α)) (k k' : String)
    (h : k' ≠ k) : dictGet (dictDel d k) k' = dictGet d k' := by
  have h2 : k ≠ k' := Ne.symm h
  induction d with
  | nil => simp [dictDel]
  | cons p rest ih =>
    by_cases h0 : p.1 = k
    · subst h0
      simp [dictDel, dictGet, h2, Ne.symm h2]
    · by_cases h1 : p.1 = k'
      · simp [dictDel, dictGet, h0, h1, h, h2]
      · simp [dictDel, dictGet, h0, h1, ih]

theorem dictGet_dictDel_self {α : Type} (d : List (String × α)) (k : String)
    (hnd : (d.map Prod.fst).Nodup) : dictGet (dictDel d k) k = none := by
  induction d with
  | nil => simp [dictDel, dictGet]
  | cons p rest ih =>
    simp only [List.map_cons, List.nodup_cons] at hnd
    by_cases h0 : p.1 = k
    · subst h0
      simp only [dictDel, if_pos rfl]
      -- the key does not recur in `rest`
      clear ih
      induction rest with
      | nil => simp [dictGet]
      | cons q rest2 ih2 =>
        simp only [List.map_cons, List.mem_cons, not_or] at hnd
        have hq : q.1 ≠ p.1 := fun hh => hnd.1.1 hh.symm
        simp only [dictGet, if_neg hq]
        exact ih2 ⟨fun hm => hnd.1.2 hm, hnd.2.of_cons⟩
    · simp only [dictDel, if_neg h0, dictGet, if_neg h0]
      exact ih hnd.2

theorem dictGet_eq_none_iff {α : Type} (d : List (String × α)) (k : String) :
    dictGet d k = none ↔ k ∉ d.map Prod.fst := by
  induction d with
  | nil => simp [dictGet]
  | cons p rest ih =>
    by_cases h0 : p.1 = k
    · simp [dictGet, h0]
    · simp only [dictGet, if_neg h0, List.map_cons, List.mem_cons, ih]
      constructor
      · intro hk hor
        rcases hor with hh | hh
        · exact h0 hh.symm
        · exact hk hh
      · intro hk hm
        exact hk (Or.inr hm)

theorem keys_dictSet {α : Type} (d : List (String × α)) (k : String) (v : α) :
    (dictSet d k v).map Prod.fst =
      if (dictGet d k).isSome then d.map Prod.fst else d.map Prod.fst ++ [k] := by
  induction d with
  | nil => simp [dictSet, dictGet]
  | cons p rest ih =>
    by_cases h0 : p.1 = k
    · simp [dictSet, dictGet, h0]
    · by_cases h1 : (dictGet rest k).isSome <;>
        simp [dictSet, dictGet, h0, h1, ih]

theorem nodupKeys_dictSet {α : Type} (d : List (String × α)) (k : String)
    (v : α) (hnd : (d.map Prod.fst).Nodup) :
    ((dictSet d k v).map Prod.fst).Nodup := by
  rw [keys_dictSet]
  by_cases h : (dictGet d k).isSome
  · simpa [h] using hnd
  · have hk : k ∉ d.map Prod.fst := by
      rw [← dictGet_eq_none_iff]
      exact Option.not_isSome_iff_eq_none.mp h
    simp [h, List.nodup_append, hnd, hk]

theorem dictGet_mem {α : Type} {d : List (String × α)} {k : String} {v : α}
    (h : dictGet d k = some v) : (k, v) ∈ d := by
  induction d with
  | nil => simp [dictGet] at h
  | cons p rest ih =>
    obtain ⟨pk, pv⟩ := p
    by_cases h0 : pk = k
    · simp only [dictGet, if_pos h0, Option.some.injEq] at h
      subst h0
      subst h
      exact List.mem_cons_self _ _
    · simp only [dictGet, if_neg h0] at h
      exact List.mem_cons_of_mem _ (ih h)

theorem mem_dictSet {α : Type} {d : List (String × α)} {k : String} {v : α}
    {x : String × α} (h : x ∈ dictSet d k v) : x = (k, v) ∨ x ∈ d := by
  induction d with
  | nil => simpa [dictSet] using h
  | cons p rest ih =>
    by_cases h0 : p.1 = k
    · simp only [dictSet, if_pos h0, List.mem_cons] at h
      rcases h with h | h
      · exact Or.inl h
      · exact Or.inr (List.mem_cons_of_mem _ h)
    · simp only [dictSet, if_neg h0, List.mem_cons] at h
      rcases h with h | h
      · exact Or.inr (by simp [h])
      · rcases ih h with h1 | h1
        · exact Or.inl h1
        · exact Or.inr (List.mem_cons_of_mem _ h1)

theorem mem_dictDel {α : Type} {d : List (String × α)} {k : String}
    {x : String × α} (h : x ∈ dictDel d k) : x ∈ d := by
  induction d with
  | nil => simp [dictDel] at h
  | cons p rest ih =>
    by_cases h0 : p.1 = k
    · simp only [dictDel, if_pos h0] at h
      exact List.mem_cons_of_mem _ h
    · simp only [dictDel, if_neg h0, List.mem_cons] at h
      rcases h with h | h
      · simp [h]
      · exact List.mem_cons_of_mem _ (ih h)

/-! ### C10 — `remove_from_inventory` semantics -/

/-- C10: `GameState.remove_from_inventory` returns `False` and leaves the
inventory, stats and variables unchanged when the item is absent or its
stored quantity is below the request; otherwise it returns `True`, lowers
the stored quantity by exactly the requested amount, deletes the key when
the remainder is zero, and leaves every other key and the stats/variables
untouched.  (It is a total function — the source cannot raise.) -/
theorem remove_from_inventory_correct (gs : GameState) (item : String) (q : Int)
    (hnd : (gs.inventory.map Prod.fst).Nodup) :
    (dictGet gs.inventory item = none →
      gs.remove_from_inventory item q = (false, gs)) ∧
    (∀ p, dictGet gs.inventory item = some p → p < q →
      gs.remove_from_inventory item q = (false, gs)) ∧
    (∀ p, dictGet gs.inventory item = some p → q ≤ p →
      (gs.remove_from_inventory item q).1 = true ∧
      (gs.remove_from_inventory item q).2.stats = gs.stats ∧
      (gs.remove_from_inventory item q).2.game_variables = gs.game_variables ∧
      dictGet (gs.remove_from_inventory item q).2.inventory item =
        (if p - q = 0 then none else some (p - q)) ∧
      (∀ k, k ≠ item →
        dictGet (gs.remove_from_inventory item q).2.inventory k =
          dictGet gs.inventory k)) := by
  refine ⟨?_, ?_, ?_⟩
  · intro h
    simp [GameState.remove_from_inventory, h]
  · intro p hp hlt
    simp [GameState.remove_from_inventory, hp, hlt]
  · intro p hp hle
    have hnlt : ¬p < q := not_lt.mpr hle
    by_cases hz : p - q ≤ 0
    · have hz0 : p - q = 0 := le_antisymm hz (by omega)
      constructor
      · simp [GameState.remove_from_inventory, hp, hnlt, hz]
      refine ⟨?_, ?_, ?_, ?_⟩
      · simp [GameState.remove_from_inventory, hp, hnlt, hz]
      · simp [GameState.remove_from_inventory, hp, hnlt, hz]
      · simp only [GameState.remove_from_inventory, hp, hnlt, if_false, if_pos hz,
          if_pos hz0]
        exact dictGet_dictDel_self _ _ (nodupKeys_dictSet _ _ _ hnd)
      · intro k hk
        simp only [GameState.remove_from_inventory, hp, hnlt, if_false, if_pos hz]
        rw [dictGet_dictDel_ne _ _ _ hk, dictGet_dictSet_ne _ _ _ _ hk]
    · have hz0 : ¬p - q = 0 := by omega
      refine ⟨?_, ?_, ?_, ?_, ?_⟩
      · simp [GameState.remove_from_inventory, hp, hnlt, hz]
      · simp [GameState.remove_from_inventory, hp, hnlt, hz]
      · simp [GameState.remove_from_inventory, hp, hnlt, hz]
      · simp only [GameState.remove_from_inventory, hp, hnlt, if_false, if_neg hz,
          if_neg hz0]
        exact dictGet_dictSet_self _ _ _
      · intro k hk
        simp only [GameState.remove_from_inventory, hp, hnlt, if_false, if_neg hz]
        exact dictGet_dictSet_ne _ _ _ _ hk

/-- Witness for C10 at concrete inputs: removing 2 of 2 Potions succeeds
and erases the key; removing an absent item fails and changes nothing. -/
theorem remove_from_inventory_correct_witness :
    (GameState.remove_from_inventory ⟨[("Potion", 2)], [], []⟩ "Potion" 2).1 = true ∧
    dictGet (GameState.remove_from_inventory ⟨[("Potion", 2)], [], []⟩ "Potion" 2).2.inventory
      "Potion" = none ∧
    GameState.remove_from_inventory ⟨[("Potion", 2)], [], []⟩ "Gold" 1 =
      (false, ⟨[("Potion", 2)], [], []⟩) := by
  have h1 := remove_from_inventory_correct ⟨[("Potion", 2)], [], []⟩ "Potion" 2
    (by decide)
  have h2 := remove_from_inventory_correct ⟨[("Potion", 2)], [], []⟩ "Gold" 1
    (by decide)
  have hget : dictGet ([("Potion", (2 : Int))]) "Potion" = some 2 := by decide
  have hnone : dictGet ([("Potion", (2 : Int))]) "Gold" = none := by decide
  have h3 := h1.2.2 2 hget (by decide)
  exact ⟨h3.1, by simpa using h3.2.2.2.1, h2.1 hnone⟩

/-! ### C9 — the strict-positivity inventory invariant -/

theorem dictDel_sublist {α : Type} (d : List (String × α)) (k : String) :
    List.Sublist (dictDel d k) d := by
  induction d with
  | nil => simp [dictDel]
  | cons p rest ih =>
    by_cases h0 : p.1 = k
    · simp only [dictDel, if_pos h0]
      exact List.sublist_cons_self _ _
    · simp only [dictDel, if_neg h0]
      exact ih.cons₂ _

theorem nodupKeys_dictDel {α : Type} (d : List (String × α)) (k : String)
    (hnd : (d.map Prod.fst).Nodup) : ((dictDel d k).map Prod.fst).Nodup :=
  hnd.sublist ((dictDel_sublist d k).map Prod.fst)

theorem mem_dictDel_dictSet {α : Type} {d : List (String × α)} {k : String}
    {v : α} {p : String × α} (hnd : (d.map Prod.fst).Nodup)
    (hp : p ∈ dictDel (dictSet d k v) k) : p ∈ d := by
  induction d with
  | nil =>
    simp [dictSet, dictDel] at hp
  | cons q rest ih =>
    simp only [List.map_cons, List.nodup_cons] at hnd
    by_cases h0 : q.1 = k
    · subst h0
      simp only [dictSet, if_pos rfl, dictDel, List.mem_cons] at hp
      exact List.mem_cons_of_mem _ hp
    · simp only [dictSet, if_neg h0, dictDel, if_neg h0, List.mem_cons] at hp
      rcases hp with hp | hp
      · simp [hp]
      · exact List.mem_cons_of_mem _ (ih hnd.2 hp)

/-- Joint closure invariant used for C9: positivity together with key
uniqueness of the inventory (every Python dict has unique keys). -/
theorem posAdd_closure (gs : GameState) (h : ReachableBy Effect.posAdd gs) :
    invPositive gs ∧ (gs.inventory.map Prod.fst).Nodup := by
  induction h with
  | base =>
    constructor
    · intro p hp
      simp [GameState.init] at hp
    · simp [GameState.init]
  | @step gs1 gs2 e _ hallowed happ ih =>
    cases e with
    | addItem item q =>
      simp only [Effect.apply, Except.ok.injEq] at happ
      subst happ
      constructor
      · intro p hp
        unfold GameState.add_to_inventory at hp
        rcases hget : dictGet gs1.inventory item with _ | p0 <;>
          rw [hget] at hp <;> simp only at hp
        · rcases mem_dictSet hp with h1 | h1
          · rw [h1]
            show (0 : Int) < q
            exact hallowed
          · exact ih.1 p h1
        · rcases mem_dictSet hp with h1 | h1
          · have hq : (0 : Int) < q := hallowed
            have hp0 : (0 : Int) < p0 := ih.1 _ (dictGet_mem hget)
            rw [h1]
            show (0 : Int) < p0 + q
            omega
          · exact ih.1 p h1
      · unfold GameState.add_to_inventory
        rcases hget : dictGet gs1.inventory item with _ | p0 <;>
          simp only <;> exact nodupKeys_dictSet _ _ _ ih.2
    | removeItem item q =>
      simp only [Effect.apply, Except.ok.injEq] at happ
      subst happ
      unfold GameState.remove_from_inventory
      rcases hget : dictGet gs1.inventory item with _ | p0 <;> simp only
      · exact ih
      · by_cases hlt : p0 < q
        · rw [if_pos hlt]
          exact ih
        · rw [if_neg hlt]
          by_cases hz : p0 - q ≤ 0
          · rw [if_pos hz]
            simp only
            constructor
            · intro p hp
              exact ih.1 p (mem_dictDel_dictSet ih.2 hp)
            · exact nodupKeys_dictDel _ _ (nodupKeys_dictSet _ _ _ ih.2)
          · rw [if_neg hz]
            simp only
            constructor
            · intro p hp
              rcases mem_dictSet hp with h1 | h1
              · rw [h1]
                show (0 : Int) < p0 - q
                omega
              · exact ih.1 p h1
            · exact nodupKeys_dictSet _ _ _ ih.2
    | setStat stat v =>
      simp only [Effect.apply, Except.ok.injEq] at happ
      subst happ
      exact ih
    | addStat stat v =>
      have hinv : gs2.inventory = gs1.inventory := by
        simp only [Effect.apply, GameState.increment_stat] at happ
        rcases hget : dictGet gs1.stats stat with _ | v0
        · rw [hget] at happ
          simp only [Except.ok.injEq] at happ
          rw [← happ]
        · rw [hget] at happ
          simp only at happ
          rcases hadd : pyAdd v0 v with _ | v2
          · rw [hadd] at happ
            simp at happ
          · rw [hadd] at happ
            simp only [Except.ok.injEq] at happ
            rw [← happ]
      constructor
      · intro p hp
        rw [hinv] at hp
        exact ih.1 p hp
      · rw [hinv]
        exact ih.2
    | setVar var v =>
      simp only [Effect.apply, Except.ok.injEq] at happ
      subst happ
      exact ih

/-- C9 counterexample: the DSL string `add_item:Gold:0` parses to an effect
with quantity 0, and applying it to the empty initial state reaches a state
whose inventory holds the entry `("Gold", 0)` — an entry that is present
with a non-positive quantity, refuting the claimed invariant. -/
theorem inventory_positive_counterexample :
    Reachable gsGoldZero ∧ ¬invPositive gsGoldZero ∧
    Effect.create "add_item:Gold:0" = .ok (.addItem "Gold" 0) := by
  refine ⟨?_, by decide, by rfl⟩
  show ReachableBy (fun _ => True) gsGoldZero
  exact @ReachableBy.step (fun _ => True) GameState.init gsGoldZero
    (.addItem "Gold" 0) ReachableBy.base trivial rfl

/-- C9 (amended): in every state reachable from the empty initial state
through effect applications whose `add_item` quantities are strictly
positive, every inventory entry holds a strictly positive quantity. -/
theorem inventory_positive_of_posAdd (gs : GameState)
    (h : ReachableBy Effect.posAdd gs) : invPositive gs :=
  (posAdd_closure gs h).1

/-- Witness for C9 (amended) at a concrete reachable state: add 2 Gold then
remove 1; the resulting single entry is strictly positive. -/
theorem inventory_positive_of_posAdd_witness :
    invPositive ⟨[("Gold", 1)], [], []⟩ :=
  inventory_positive_of_posAdd _
    (@ReachableBy.step Effect.posAdd ⟨[("Gold", 2)], [], []⟩ ⟨[("Gold", 1)], [], []⟩
      (.removeItem "Gold" 1)
      (@ReachableBy.step Effect.posAdd GameState.init ⟨[("Gold", 2)], [], []⟩
        (.addItem "Gold" 2) ReachableBy.base (by decide : (0 : Int) < 2) rfl)
      trivial rfl)

/-! ### C2 / C3 — history snapshots alias the live state (code bug) -/

/-- C2 (evidence of the code bug at the failing input): the initial history
entry is pushed while the inventory is empty, yet after the later
effect-applying action `add_item:Gold:1` the inventory recorded in that
already-pushed entry reads `Gold ↦ 1` — `to_dict` returns a dict whose
values alias the live inner dictionaries, so the snapshot is not an
independent copy. -/
theorem snapshot_mutates_after_push :
    initialRunnerSt.history.head? = some (⟨0, 0, 0⟩, none) ∧
    (derefState initialRunnerSt.heap ⟨0, 0, 0⟩).inventory = [] ∧
    stAfterGold.history.head? = some (⟨0, 0, 0⟩, none) ∧
    (derefState stAfterGold.heap ⟨0, 0, 0⟩).inventory = [("Gold", 1)] := by
  decide

/-- C3 (evidence of the code bug at the failing input): one effect-applying
action (`add_item:Gold:1`) followed by one undo does not restore the
initial snapshot: the history is back to the single initial entry, but the
restored `GameState` still reads `Gold ↦ 1` while the initial state read an
empty inventory — the aliased snapshots make undo a no-op on the
dictionary contents. -/
theorem undo_fails_to_restore_initial :
    stUndone.history = [(⟨0, 0, 0⟩, none)] ∧
    (derefState stUndone.heap stUndone.gs).inventory = [("Gold", 1)] ∧
    (derefState initialRunnerSt.heap initialRunnerSt.gs).inventory = [] := by
  decide

/-! ### C4 — the mechanics of `undo` -/

/-- C4: with at least two history entries, `undo` pops the most recent
entry, restores the game state from the entry now on top of the stack and
sets the current element id to the id recorded in that entry (the heap is
untouched); with one entry or fewer it reports "Cannot undo further." and
leaves the game state, the history list and the current element id
unchanged. -/
theorem undo_correct (st : RunnerSt) :
    (st.history.length ≤ 1 → undoR st = st) ∧
    (2 ≤ st.history.length → st.history.dropLast.getLast? ≠ none) ∧
    (∀ entry, 2 ≤ st.history.length →
      st.history.dropLast.getLast? = some entry →
      undoR st = { st with
                   history := st.history.dropLast
                   gs := entry.1
                   current := entry.2 }) := by
  refine ⟨?_, ?_, ?_⟩
  · intro h
    simp [undoR, h]
  · intro h2
    have hlen : st.history.dropLast.length = st.history.length - 1 :=
      st.history.length_dropLast
    intro hnone
    rw [List.getLast?_eq_none_iff] at hnone
    rw [hnone] at hlen
    simp at hlen
    omega
  · intro entry h2 hlast
    have hn : ¬st.history.length ≤ 1 := by omega
    simp [undoR, hn, hlast]

/-- Witness for C4 at concrete states: the single-entry initial state is
left unchanged; a two-entry state is popped and restored from its new
top. -/
theorem undo_correct_witness :
    undoR initialRunnerSt = initialRunnerSt ∧
    undoR stAfterGold = ⟨stAfterGold.heap, ⟨0, 0, 0⟩, [(⟨0, 0, 0⟩, none)], none⟩ := by
  constructor
  · exact (undo_correct initialRunnerSt).1 (by decide)
  · have h := (undo_correct stAfterGold).2.2 (⟨0, 0, 0⟩, none) (by decide) (by decide)
    rw [h]
    decide

/-! ### C5 — choice-line bracket parsing -/

/-- Inside a bracket group, any non-bracket token is appended to the
content accumulator. -/
theorem choiceScan_step_other (tt : TokenType) (tv : String) (rest : List Token)
    (level : Nat) (dest cond : Option String) (fx : List String) (f : Bool)
    (acc : List Char) (h1 : tt ≠ TokenType.OPEN_BRACKET)
    (h2 : tt ≠ TokenType.CLOSE_BRACKET) :
    choiceScan ((tt, tv) :: rest) (level + 1) dest cond fx f acc =
      choiceScan rest (level + 1) dest cond fx f (acc ++ tv.toList) := by
  cases tt <;> first
    | rfl
    | exact absurd rfl h1
    | exact absurd rfl h2

/-- The joined literal text of a token list. -/
def joinedText (toks : List Token) : List Char :=
  (toks.map (fun t => t.2.toList)).flatten

/-- Scanning a flat bracket group when a condition block was already seen:
the accumulated content is closed off as one more effect. -/
theorem choiceScan_inner_true (inner : List Token)
    (hflat : inner.all (fun t =>
      !(t.1 == TokenType.OPEN_BRACKET) && !(t.1 == TokenType.CLOSE_BRACKET)))
    (rest : List Token) (dest cond : Option String) (fx : List String)
    (acc : List Char) :
    choiceScan (inner ++ (TokenType.CLOSE_BRACKET, "\x7d") :: rest) 1 dest cond fx true acc =
      choiceScan rest 0 dest cond
        (fx ++ [(trimChars (acc ++ joinedText inner)).asString]) true [] := by
  induction inner generalizing acc with
  | nil =>
    simp [choiceScan, joinedText]
  | cons t inner' ih =>
    obtain ⟨tt, tv⟩ := t
    simp only [List.all_cons, Bool.and_eq_true, Bool.not_eq_true',
      beq_eq_false_iff_ne] at hflat
    rw [List.cons_append, choiceScan_step_other tt tv _ 0 dest cond fx true acc
      hflat.1.1 hflat.1.2]
    rw [ih hflat.2 (acc ++ tv.toList)]
    simp [joinedText, List.append_assoc]

/-- Scanning the first flat bracket group: the accumulated content is
closed off as the condition (even when empty). -/
theorem choiceScan_inner_false (inner : List Token)
    (hflat : inner.all (fun t =>
      !(t.1 == TokenType.OPEN_BRACKET) && !(t.1 == TokenType.CLOSE_BRACKET)))
    (rest : List Token) (dest cond : Option String) (fx : List String)
    (acc : List Char) :
    choiceScan (inner ++ (TokenType.CLOSE_BRACKET, "\x7d") :: rest) 1 dest cond fx false acc =
      choiceScan rest 0 dest
        (some ((trimChars (acc ++ joinedText inner)).asString)) fx true [] := by
  induction inner generalizing acc with
  | nil =>
    simp [choiceScan, joinedText]
  | cons t inner' ih =>
    obtain ⟨tt, tv⟩ := t
    simp only [List.all_cons, Bool.and_eq_true, Bool.not_eq_true',
      beq_eq_false_iff_ne] at hflat
    rw [List.cons_append, choiceScan_step_other tt tv _ 0 dest cond fx false acc
      hflat.1.1 hflat.1.2]
    rw [ih hflat.2 (acc ++ tv.toList)]
    simp [joinedText, List.append_assoc]

/-- The choice-line scan over an abstract part list: the first bracket
group closed becomes the condition, later groups become effects, the first
transition becomes the destination, and a second transition (counting one
already recorded) is the `multipleTransitions` error. -/
theorem choiceScan_render (ps : List ChoiceLinePart)
    (hflat : ∀ p ∈ ps, partIsFlat p) :
    ∀ (dest cond : Option String) (fx : List String) (f : Bool),
    choiceScan (renderParts ps) 0 dest cond fx f [] =
      (if 2 ≤ (partTransitions ps).length + (if dest.isSome then 1 else 0) then
        .error .multipleTransitions
      else
        .ok (dest.or (partTransitions ps).head?,
          (if f then cond else ((partContents ps).head?).or cond),
          (if f then fx ++ partContents ps else fx ++ (partContents ps).tail))) := by
  induction ps with
  | nil =>
    intro dest cond fx f
    have : ¬2 ≤ (partTransitions []).length + (if dest.isSome then 1 else 0) := by
      cases dest <;> simp [partTransitions]
    rw [if_neg this]
    simp only [renderParts, List.map_nil, List.flatten_nil, partTransitions,
      partContents, List.filterMap_nil, List.head?_nil, Option.or_none,
      List.append_nil, List.tail_nil]
    cases f <;> simp [choiceScan]
  | cons p ps' ih =>
    intro dest cond fx f
    have hflat' : ∀ q ∈ ps', partIsFlat q := fun q hq => hflat q (List.mem_cons_of_mem _ hq)
    cases p with
    | toScene d =>
      have hrender : renderParts (ChoiceLinePart.toScene d :: ps') =
          (TokenType.TRANSITION, "->") :: (TokenType.TEXT, d) :: renderParts ps' := by
        simp [renderParts, renderPart]
      have hlen : (partTransitions (ChoiceLinePart.toScene d :: ps')).length =
          (partTransitions ps').length + 1 := by
        simp [partTransitions]
      rw [hrender]
      cases dest with
      | some d0 =>
        simp only [choiceScan]
        have hc : 2 ≤ (partTransitions (ChoiceLinePart.toScene d :: ps')).length +
            (if (some d0 : Option String).isSome then 1 else 0) := by
          rw [hlen]
          simp
        rw [if_pos hc]
      | none =>
        simp only [choiceScan]
        rw [ih hflat' (some d) cond fx f]
        have e1 : (if (some d : Option String).isSome then 1 else 0) = 1 := rfl
        have e2 : (if (none : Option String).isSome then 1 else 0) = 0 := rfl
        have hhead : (partTransitions (ChoiceLinePart.toScene d :: ps')).head? =
            some d := by
          simp [partTransitions]
        have hcont : partContents (ChoiceLinePart.toScene d :: ps') =
            partContents ps' := by
          simp [partContents]
        rw [e1, e2, hlen, Nat.add_zero, hhead, hcont]
        rfl
    | brk inner =>
      have hrender : renderParts (ChoiceLinePart.brk inner :: ps') =
          (TokenType.OPEN_BRACKET, "\x7b") ::
            (inner ++ (TokenType.CLOSE_BRACKET, "\x7d") :: renderParts ps') := by
        simp [renderParts, renderPart]
      have hT : partTransitions (ChoiceLinePart.brk inner :: ps') =
          partTransitions ps' := by
        simp [partTransitions]
      have hC : partContents (ChoiceLinePart.brk inner :: ps') =
          brkContent inner :: partContents ps' := by
        simp [partContents]
      rw [hrender]
      have hinner : inner.all (fun t =>
          !(t.1 == TokenType.OPEN_BRACKET) && !(t.1 == TokenType.CLOSE_BRACKET)) := by
        have := hflat _ (List.mem_cons_self (ChoiceLinePart.brk inner) ps')
        simpa [partIsFlat] using this
      have hcontent : (trimChars ([] ++ joinedText inner)).asString = brkContent inner := by
        simp [brkContent, joinedText]
      simp only [choiceScan]
      rw [hT, hC]
      cases f with
      | true =>
        rw [choiceScan_inner_true inner hinner (renderParts ps') dest cond fx []]
        rw [hcontent]
        rw [ih hflat' dest cond (fx ++ [brkContent inner]) true]
        refine if_congr Iff.rfl rfl ?_
        simp only [eq_self_iff_true, if_true, List.append_assoc,
          List.singleton_append]
      | false =>
        rw [choiceScan_inner_false inner hinner (renderParts ps') dest cond fx []]
        rw [hcontent]
        rw [ih hflat' dest (some (brkContent inner)) fx true]
        refine if_congr Iff.rfl rfl ?_
        simp only [eq_self_iff_true, if_true, Bool.false_eq_true, if_false,
          List.head?_cons, List.tail_cons]
        rfl

set_option maxRecDepth 8192 in
/-- C5: on every choice line whose tail renders from a part list with flat
bracket groups, the first bracket group (even if empty) is recorded
verbatim as the condition string, every later bracket group becomes one
more effect string, at most one transition is accepted and a second one is
the `multipleTransitions` parse error; in particular the two bracket
examples of the specification lex and parse to exactly the claimed
`ChoiceElement`s. -/
theorem choice_first_bracket_condition :
    (∀ (marker choice_text : String) (ps : List ChoiceLinePart),
      (∀ p ∈ ps, partIsFlat p) →
      ((partTransitions ps).length ≤ 1 →
        matchChoice ((TokenType.CHOICE, marker) :: (TokenType.TEXT, choice_text) ::
            renderParts ps) =
          .ok (some (.choice none marker.length choice_text
            (partTransitions ps).head? (partContents ps).head?
            (partContents ps).tail))) ∧
      (2 ≤ (partTransitions ps).length →
        matchChoice ((TokenType.CHOICE, marker) :: (TokenType.TEXT, choice_text) ::
            renderParts ps) = .error .multipleTransitions)) ∧
    tokenizeLine "* Open the chest {has_item:Key:1}".toList = .ok chestTokens1 ∧
    matchChoice chestTokens1 =
      .ok (some (.choice none 1 "Open the chest" none (some "has_item:Key:1") [])) ∧
    tokenizeLine "* Open the chest {} {add_item:Gold:50}".toList = .ok chestTokens2 ∧
    matchChoice chestTokens2 =
      .ok (some (.choice none 1 "Open the chest" none (some "") ["add_item:Gold:50"])) := by
  refine ⟨?_, rfl, rfl, rfl, rfl⟩
  intro marker choice_text ps hflat
  have e2 : (if (none : Option String).isSome then 1 else 0) = 0 := rfl
  constructor
  · intro hle
    have hnot2 : ¬2 ≤ (partTransitions ps).length + (if (none : Option String).isSome then 1 else 0) := by
      rw [e2]
      omega
    simp only [matchChoice, choiceScan_render ps hflat none none [] false,
      if_neg hnot2]
    simp [Option.or_none, Except.map]
  · intro h2
    have h2' : 2 ≤ (partTransitions ps).length + (if (none : Option String).isSome then 1 else 0) := by
      simpa using h2
    simp only [matchChoice, choiceScan_render ps hflat none none [] false, h2',
      if_pos h2']
    rfl

/-- Witness for C5 at a concrete part list (a bracket group, a transition
and an empty bracket group). -/
theorem choice_first_bracket_condition_witness :
    matchChoice ((TokenType.CHOICE, "*") :: (TokenType.TEXT, "t") ::
        renderParts [.brk [(TokenType.TEXT, "x")], .toScene "camp", .brk []]) =
      .ok (some (.choice none 1 "t" (some "camp") (some "x") [""])) :=
  (choice_first_bracket_condition.1 "*" "t"
    [.brk [(TokenType.TEXT, "x")], .toScene "camp", .brk []]
    (by decide)).1 (by decide)

/-! ### C1 — the parser assigns no identifiers and no parents -/

theorem idsNone_append {l : List PElem} {e : PElem} (hl : ∀ x ∈ l, IdsNone x)
    (he : IdsNone e) : ∀ x ∈ l ++ [e], IdsNone x := by
  intro x hx
  rcases List.mem_append.mp hx with h | h
  · exact hl x h
  · rw [List.mem_singleton.mp h]
    exact he

theorem matchDialogue_idsNone {tokens : List Token} {e : PElem}
    (h : matchDialogue tokens = .ok (some e)) : IdsNone e := by
  unfold matchDialogue at h
  split at h
  · rcases hfx : dialogueEffectsLoop _ 0 [] [] with e0 | fx <;> rw [hfx] at h
    · simp [Except.map] at h
    · simp only [Except.map, Except.ok.injEq, Option.some.injEq] at h
      rw [← h]
      exact IdsNone.dialogue _ _ _
  · simp at h
  · simp at h

theorem matchChoice_idsNone {tokens : List Token} {e : PElem}
    (h : matchChoice tokens = .ok (some e)) : IdsNone e := by
  unfold matchChoice at h
  split at h
  · split at h
    · rcases hr : choiceScan _ 0 none none [] false [] with e0 | r <;> rw [hr] at h
      · simp [Except.map] at h
      · simp only [Except.map, Except.ok.injEq, Option.some.injEq] at h
        rw [← h]
        exact IdsNone.choice _ _ _ _ _
    · simp at h
  · simp at h

/-- No line-level parsing function ever attaches an identifier: the fuel
induction covering `parseSceneBody`, `parseIfBlock`, `parseIfBody` and
`parseTop` simultaneously. -/
theorem parse_idsNone (fuel : Nat) :
    (∀ (lines : List (Nat × List Token)) (idx : Nat) (scene : PScene)
      (out : Nat × PScene), parseSceneBody lines fuel idx scene = .ok out →
      (∀ e ∈ scene.content, IdsNone e) → scene.element_id = none →
      sceneIdsNone out.2) ∧
    (∀ (lines : List (Nat × List Token)) (idx : Nat) (out : PElem × Nat),
      parseIfBlock lines fuel idx = .ok out → IdsNone out.1) ∧
    (∀ (lines : List (Nat × List Token)) (idx initL consumed : Nat)
      (pIf : Bool) (cond : String) (ifblk : List PElem)
      (elseblk : Option (List PElem)) (out : PElem × Nat),
      parseIfBody lines fuel idx initL consumed pIf cond ifblk elseblk = .ok out →
      (∀ e ∈ ifblk, IdsNone e) → (∀ e ∈ elseblk.getD [], IdsNone e) →
      IdsNone out.1) ∧
    (∀ (lines : List (Nat × List Token)) (idx : Nat) (acc : List PScene)
      (out : List PScene), parseTop lines fuel idx acc = .ok out →
      (∀ s ∈ acc, sceneIdsNone s) → ∀ s ∈ out, sceneIdsNone s) := by
  induction fuel with
  | zero =>
    refine ⟨?_, ?_, ?_, ?_⟩ <;> intros <;>
      simp_all [parseSceneBody, parseIfBlock, parseIfBody, parseTop]
  | succ n ih =>
    obtain ⟨ihScene, ihIfBlock, ihIfBody, ihTop⟩ := ih
    refine ⟨?_, ?_, ?_, ?_⟩
    · -- parseSceneBody
      intro lines idx scene out h hinv hid
      rw [parseSceneBody] at h
      rcases hline : lines.get? idx with _ | ⟨lineNum, tokens⟩ <;> rw [hline] at h <;>
        simp only at h
      · simp only [Except.ok.injEq] at h
        rw [← h]
        exact ⟨hid, hinv⟩
      · rcases hhead : tokens.head? with _ | ⟨ftype, fval⟩ <;> rw [hhead] at h <;>
          simp only at h
        · exact ihScene lines (idx + 1) scene out h hinv hid
        · by_cases h1 : ftype = TokenType.SCENE
          · rw [if_pos h1] at h
            simp only [Except.ok.injEq] at h
            rw [← h]
            exact ⟨hid, hinv⟩
          · rw [if_neg h1] at h
            by_cases h2 : ftype = TokenType.IF
            · rw [if_pos h2] at h
              rcases hblk : parseIfBlock lines n idx with e0 | ⟨elem, consumed⟩ <;>
                rw [hblk] at h
              · simp at h
              · exact ihScene lines (idx + consumed) _ out h
                  (idsNone_append hinv (ihIfBlock lines idx (elem, consumed) hblk))
                  hid
            · rw [if_neg h2] at h
              by_cases h3 : ftype = TokenType.DIALOGUE
              · rw [if_pos h3] at h
                rcases hm : matchDialogue tokens with e0 | o <;> rw [hm] at h
                · simp at h
                · rcases o with _ | elem
                  · simp at h
                  · exact ihScene lines (idx + 1) _ out h
                      (idsNone_append hinv (matchDialogue_idsNone hm)) hid
              · rw [if_neg h3] at h
                by_cases h4 : ftype = TokenType.CHOICE
                · rw [if_pos h4] at h
                  rcases hm : matchChoice tokens with e0 | o <;> rw [hm] at h
                  · simp at h
                  · rcases o with _ | elem
                    · simp at h
                    · exact ihScene lines (idx + 1) _ out h
                        (idsNone_append hinv (matchChoice_idsNone hm)) hid
                · rw [if_neg h4] at h
                  by_cases h5 : ftype = TokenType.ELSE ∨ ftype = TokenType.ENDIF
                  · rw [if_pos h5] at h
                    simp at h
                  · rw [if_neg h5] at h
                    simp at h
    · -- parseIfBlock
      intro lines idx out h
      rw [parseIfBlock] at h
      rcases hline : lines.get? idx with _ | ⟨lineNum, if_tokens⟩ <;> rw [hline] at h <;>
        simp only at h
      · simp at h
      · rcases if_tokens with _ | ⟨⟨tt, tv⟩, condToks⟩
        · simp at h
        · cases tt <;> try simp at h
          rcases condToks with _ | ⟨c0, crest⟩
          · simp at h
          · exact ihIfBody lines (idx + 1) lineNum 1 true _ [] none out h
              (by intro e he; simp at he) (by intro e he; simp at he)
    · -- parseIfBody
      intro lines idx initL consumed pIf cond ifblk elseblk out h hif helse
      rw [parseIfBody] at h
      rcases hline : lines.get? idx with _ | ⟨lineNum, tokens⟩ <;> rw [hline] at h <;>
        simp only at h
      · simp at h
      · rcases hhead : tokens.head? with _ | ⟨ftype, fval⟩ <;> rw [hhead] at h <;>
          simp only at h
        · exact ihIfBody lines (idx + 1) initL (consumed + 1) pIf cond ifblk
            elseblk out h hif helse
        · by_cases h1 : ftype = TokenType.ELSE
          · rw [if_pos h1] at h
            by_cases hp : ¬pIf
            · rw [if_pos hp] at h
              simp at h
            · rw [if_neg hp] at h
              by_cases hlen : tokens.length > 1
              · rw [if_pos hlen] at h
                simp at h
              · rw [if_neg hlen] at h
                exact ihIfBody lines (idx + 1) initL (consumed + 1) false cond
                  ifblk (some []) out h hif (by intro e he; simp at he)
          · rw [if_neg h1] at h
            by_cases h2 : ftype = TokenType.ENDIF
            · rw [if_pos h2] at h
              by_cases hlen : tokens.length > 1
              · rw [if_pos hlen] at h
                simp at h
              · rw [if_neg hlen] at h
                simp only [Except.ok.injEq] at h
                rw [← h]
                exact IdsNone.ifElem cond ifblk elseblk hif helse
            · rw [if_neg h2] at h
              by_cases h3 : ftype = TokenType.IF
              · rw [if_pos h3] at h
                rcases hblk : parseIfBlock lines n idx with e0 | ⟨nested, m⟩ <;>
                  rw [hblk] at h <;> simp only at h
                · simp at h
                · have hn : IdsNone nested := ihIfBlock lines idx (nested, m) hblk
                  by_cases hp : pIf
                  · rw [if_pos hp] at h
                    exact ihIfBody lines (idx + m) initL (consumed + m) pIf cond
                      _ elseblk out h (idsNone_append hif hn) helse
                  · rw [if_neg hp] at h
                    refine ihIfBody lines (idx + m) initL (consumed + m) pIf cond
                      ifblk _ out h hif ?_
                    simpa using idsNone_append helse hn
              · rw [if_neg h3] at h
                by_cases h4 : ftype = TokenType.DIALOGUE
                · rw [if_pos h4] at h
                  rcases hm : matchDialogue tokens with e0 | o <;> rw [hm] at h
                  · simp at h
                  · rcases o with _ | elem
                    · simp at h
                    · simp only at h
                      have hn : IdsNone elem := matchDialogue_idsNone hm
                      by_cases hp : pIf
                      · rw [if_pos hp] at h
                        exact ihIfBody lines (idx + 1) initL (consumed + 1) pIf
                          cond _ elseblk out h (idsNone_append hif hn) helse
                      · rw [if_neg hp] at h
                        refine ihIfBody lines (idx + 1) initL (consumed + 1) pIf
                          cond ifblk _ out h hif ?_
                        simpa using idsNone_append helse hn
                · rw [if_neg h4] at h
                  by_cases h5 : ftype = TokenType.CHOICE
                  · rw [if_pos h5] at h
                    rcases hm : matchChoice tokens with e0 | o <;> rw [hm] at h
                    · simp at h
                    · rcases o with _ | elem
                      · simp at h
                      · simp only at h
                        have hn : IdsNone elem := matchChoice_idsNone hm
                        by_cases hp : pIf
                        · rw [if_pos hp] at h
                          exact ihIfBody lines (idx + 1) initL (consumed + 1) pIf
                            cond _ elseblk out h (idsNone_append hif hn) helse
                        · rw [if_neg hp] at h
                          refine ihIfBody lines (idx + 1) initL (consumed + 1) pIf
                            cond ifblk _ out h hif ?_
                          simpa using idsNone_append helse hn
                  · rw [if_neg h5] at h
                    by_cases h6 : ftype = TokenType.SCENE
                    · rw [if_pos h6] at h
                      simp at h
                    · rw [if_neg h6] at h
                      simp at h
    · -- parseTop
      intro lines idx acc out h hacc
      rw [parseTop] at h
      rcases hline : lines.get? idx with _ | ⟨lineNum, tokens⟩ <;> rw [hline] at h <;>
        simp only at h
      · simp only [Except.ok.injEq] at h
        rw [← h]
        exact hacc
      · rcases hhead : tokens.head? with _ | ⟨ftype, fval⟩ <;> rw [hhead] at h <;>
          simp only at h
        · exact ihTop lines (idx + 1) acc out h hacc
        · rcases hms : matchScene tokens with e0 | o <;> rw [hms] at h
          · simp at h
          · rcases o with _ | scene
            · simp at h
            · simp only at h
              rcases hsb : parseSceneBody lines n (idx + 1) scene with e0 | ⟨nextIdx, pop⟩ <;>
                rw [hsb] at h
              · simp at h
              · have hscene : sceneIdsNone pop := by
                  have hs0 : scene.element_id = none ∧ scene.content = [] := by
                    unfold matchScene at hms
                    split at hms
                    · split at hms
                      · simp only [Except.ok.injEq, Option.some.injEq] at hms
                        rw [← hms]
                        exact ⟨rfl, rfl⟩
                      · simp at hms
                    · simp at hms
                  exact ihScene lines (idx + 1) scene (nextIdx, pop) hsb
                    (by rw [hs0.2]; intro e he; simp at he) hs0.1
                refine ihTop lines nextIdx (acc ++ [pop]) out h ?_
                intro s hs
                rcases List.mem_append.mp hs with h1 | h1
                · exact hacc s h1
                · rw [List.mem_singleton.mp h1]
                  exact hscene

theorem buildElementMapLoop_none (fuel : Nat) :
    ∀ (queue : List AnyElem) (m : List (String × AnyElem)),
    (∀ q ∈ queue, elemIdOf q = none) → buildElementMapLoop fuel queue m = m := by
  induction fuel with
  | zero =>
    intro queue m _
    rfl
  | succ n ih =>
    intro queue m h
    cases queue with
    | nil => rfl
    | cons q rest =>
      rw [buildElementMapLoop]
      rw [h q (List.mem_cons_self _ _)]
      exact ih rest m (fun x hx => h x (List.mem_cons_of_mem _ hx))

/-- C1 (evidence of the code bug): `TalesParser.parse` never attaches a
stable identifier (or a parent) to any constructed element — in any
successful parse every scene and every nested element has no `element_id`
attribute — so `TalesRunner._build_element_map` registers nothing at all
(it only logs "Element found without a stable ID" warnings and returns an
empty map).  Shown in general for every token input, and concretely for
the demo script. -/
theorem parser_assigns_no_ids :
    (∀ (lines : List (Nat × List Token)) (ast : List PScene),
      parseTales lines = .ok ast → ∀ s ∈ ast, sceneIdsNone s) ∧
    (∀ (lines : List (Nat × List Token)) (ast : List PScene) (fuel : Nat),
      parseTales lines = .ok ast → buildElementMap fuel ast = []) ∧
    tokenize demoScript = .ok demoLines ∧
    parseTales demoLines = .ok demoAst ∧
    demoAst.head?.map PScene.element_id = some none ∧
    buildElementMap 100 demoAst = [] := by
  have part1 : ∀ (lines : List (Nat × List Token)) (ast : List PScene),
      parseTales lines = .ok ast → ∀ s ∈ ast, sceneIdsNone s := by
    intro lines ast h
    exact (parse_idsNone (4 * lines.length + 4)).2.2.2 lines 0 [] ast h
      (by intro s hs; simp at hs)
  have part2 : ∀ (lines : List (Nat × List Token)) (ast : List PScene) (fuel : Nat),
      parseTales lines = .ok ast → buildElementMap fuel ast = [] := by
    intro lines ast fuel h
    refine buildElementMapLoop_none fuel (ast.map .scene) [] ?_
    intro q hq
    rcases List.mem_map.mp hq with ⟨s, hs, rfl⟩
    exact (part1 lines ast h s hs).1
  exact ⟨part1, part2, rfl, rfl, rfl, part2 demoLines demoAst 100 rfl⟩

/-! ### C6: choice grouping and successor -/

theorem idsInList_append (l1 l2 : List PElem) :
    idsInList (l1 ++ l2) = idsInList l1 ++ idsInList l2 := by
  induction l1 with
  | nil => simp [idsInList]
  | cons e l1 ih => simp [idsInList, ih]

theorem id_mem_idsInElem {e : PElem} {z : String} (h : idOfElem e = some z) :
    z ∈ idsInElem e := by
  cases e with
  | dialogue a b c d =>
    simp only [idOfElem] at h
    simp only [idsInElem, h, Option.toList_some]
    exact List.mem_singleton_self z
  | choice a b c d f g =>
    simp only [idOfElem] at h
    simp only [idsInElem, h, Option.toList_some]
    exact List.mem_singleton_self z
  | ifElem a b c d =>
    simp only [idOfElem] at h
    simp only [idsInElem, h, Option.toList_some]
    exact List.mem_append_left _
      (List.mem_append_left _ (List.mem_singleton_self z))

theorem succInList_none :
    ∀ (l : List PElem) (y : String) (after : Option String),
      y ∉ idsInList l → succInList l y after = none := by
  refine succInList.induct
    (fun l y after => y ∉ idsInList l → succInList l y after = none)
    (fun e y after => y ∉ idsInElem e → succInElem e y after = none)
    ?_ ?_ ?_ ?_ ?_ ?_ ?_ ?_ ?_
  · intro eid sp tx fx y after h
    rfl
  · intro eid lv tx tr cond fx y after h
    rfl
  · intro eid cond ifb eb y afterSelf r hfound ih h
    exfalso
    have hnot : y ∉ idsInList ifb := by
      intro hmem
      exact h (by simp [idsInElem, idsInListOpt, hmem])
    rw [ih hnot] at hfound
    exact Option.noConfusion hfound
  · intro eid cond ifb y afterSelf hnone eb ih1 ih2 h
    have hnot : y ∉ idsInList eb := by
      intro hmem
      exact h (by simp [idsInElem, idsInListOpt, hmem])
    simp only [succInElem]
    rw [hnone]
    exact ih2 hnot
  · intro eid cond ifb y afterSelf hnone ih h
    simp only [succInElem]
    rw [hnone]
  · intro y after h
    rfl
  · intro e rest y after hfound h
    exfalso
    exact h (by simp [idsInList, id_mem_idsInElem hfound])
  · intro e rest y after afterE hne r hfound ih h
    exfalso
    have hnot : y ∉ idsInElem e := by
      intro hmem
      exact h (by simp [idsInList, hmem])
    rw [ih hnot] at hfound
    exact Option.noConfusion hfound
  · intro e rest y after afterE hne hnone ihe ihr h
    have hnote : y ∉ idsInElem e := by
      intro hmem
      exact h (by simp [idsInList, hmem])
    have hnotr : y ∉ idsInList rest := by
      intro hmem
      exact h (by simp [idsInList, hmem])
    have hnone2 : succInElem e y
        (match rest.head? with
         | some e2 => idOfElem e2
         | none => after) = none := hnone
    simp only [succInList]
    rw [if_neg hne, hnone2]
    exact ihr hnotr

theorem succInElem_none (e : PElem) (y : String) (after : Option String)
    (h : y ∉ idsInElem e) : succInElem e y after = none := by
  have hl : succInList [e] y after = none :=
    succInList_none [e] y after (by simpa [idsInList] using h)
  have hid : ¬ idOfElem e = some y := fun hc => h (id_mem_idsInElem hc)
  rcases hse : succInElem e y after with _ | r
  · rfl
  · exfalso
    simp only [succInList] at hl
    rw [if_neg hid] at hl
    have hl2 : (match succInElem e y after with
      | some r => some r
      | none => none) = none := hl
    rw [hse] at hl2
    exact Option.noConfusion hl2

theorem succInList_skip (l1 l2 : List PElem) (y : String) (after : Option String)
    (h : ∀ e ∈ l1, y ∉ idsInElem e) :
    succInList (l1 ++ l2) y after = succInList l2 y after := by
  induction l1 with
  | nil => rfl
  | cons e l1 ih =>
    have hid : ¬ idOfElem e = some y :=
      fun hc => h e (List.mem_cons_self e l1) (id_mem_idsInElem hc)
    simp only [List.cons_append, succInList]
    rw [if_neg hid, succInElem_none e y _ (h e (List.mem_cons_self e l1))]
    exact ih (fun e2 he2 => h e2 (List.mem_cons_of_mem e he2))

theorem choice_idsInElem {e : PElem} (h : isChoiceElem e = true) :
    idsInElem e = (idOfElem e).toList := by
  cases e with
  | dialogue a b c d => rfl
  | choice a b c d f g => rfl
  | ifElem a b c d => simp [isChoiceElem] at h

theorem findIdx_first {α : Type} (p : α → Bool) (pre : List α) (c : α)
    (rest : List α) (hpre : ∀ e ∈ pre, p e = false) (hc : p c = true) :
    ∀ i, List.findIdx? p (pre ++ c :: rest) i = some (pre.length + i) := by
  induction pre with
  | nil => intro i; simp [List.findIdx?_cons, hc]
  | cons a pre ih =>
    intro i
    simp only [List.cons_append, List.findIdx?_cons,
      hpre a (List.mem_cons_self a pre), Bool.false_eq_true, if_false]
    rw [ih (fun e he => hpre e (List.mem_cons_of_mem a he)) (i + 1)]
    congr 1
    simp only [List.length_cons]
    omega

theorem takeWhile_full_stop {α : Type} (p : α → Bool) (l : List α) (d : α)
    (post : List α) (hl : ∀ e ∈ l, p e = true) (hd : p d = false) :
    (l ++ d :: post).takeWhile p = l := by
  induction l with
  | nil => simp [List.takeWhile_cons, hd]
  | cons a l ih =>
    simp only [List.cons_append, List.takeWhile_cons,
      hl a (List.mem_cons_self a l), if_true]
    rw [ih (fun e he => hl e (List.mem_cons_of_mem a he))]

theorem drop_len_succ {α : Type} (pre : List α) (c : α) (rest : List α) :
    (pre ++ c :: rest).drop (pre.length + 1) = rest := by
  induction pre with
  | nil => simp
  | cons a pre ih =>
    simp only [List.cons_append, List.length_cons, List.drop_succ_cons]
    exact ih

theorem buildChoiceEntries_eq (gs : GameState) (l : List PElem)
    (h : ∀ e ∈ l, (choiceEntry gs e).isOk = true) :
    buildChoiceEntries gs l = .ok
      (l.map (fun e => ((idOfElem e).getD "", textOf e, choiceAvail gs e)),
        l.filterMap (fun e => (choiceAvailEntry gs e).map
          (fun tc => ((idOfElem e).getD "", tc)))) := by
  induction l with
  | nil => rfl
  | cons e rest ih =>
    rcases hres : choiceEntry gs e with er | ⟨b, o⟩
    · have := h e (List.mem_cons_self e rest)
      rw [hres] at this
      simp [Except.isOk, Except.toBool] at this
    · simp only [buildChoiceEntries]
      rw [hres, ih (fun e2 he2 => h e2 (List.mem_cons_of_mem e he2))]
      cases o with
      | none =>
        simp [List.filterMap_cons, choiceAvailEntry, choiceAvail, hres,
          Except.map]
      | some tc =>
        simp [List.filterMap_cons, choiceAvailEntry, choiceAvail, hres,
          Except.map]

theorem dictGet_filterMap_entries (gs : GameState) (pre2 suf : List PElem)
    (ce : PElem) (cid : String) (tc : TaeChoice)
    (hpre2 : ∀ e ∈ pre2, idOfElem e ≠ some cid ∧ (idOfElem e).isSome = true)
    (hid : idOfElem ce = some cid)
    (hent : choiceAvailEntry gs ce = some tc) :
    dictGet ((pre2 ++ ce :: suf).filterMap (fun e => (choiceAvailEntry gs e).map
      (fun tc2 => ((idOfElem e).getD "", tc2)))) cid = some tc := by
  induction pre2 with
  | nil =>
    simp [List.filterMap_cons, hent, hid, dictGet]
  | cons e pre2 ih =>
    obtain ⟨hne, hsome⟩ := hpre2 e (List.mem_cons_self e pre2)
    obtain ⟨k, hk⟩ := Option.isSome_iff_exists.mp hsome
    have hkc : k ≠ cid := by
      intro hcontra
      exact hne (by rw [hk, hcontra])
    rcases hopt : choiceAvailEntry gs e with _ | tc2
    · simp only [List.cons_append, List.filterMap_cons, hopt, Option.map_none']
      exact ih (fun e2 he2 => hpre2 e2 (List.mem_cons_of_mem e he2))
    · simp only [List.cons_append, List.filterMap_cons, hopt, Option.map_some']
      rw [hk]
      simp only [Option.getD_some, dictGet]
      rw [if_neg hkc]
      exact ih (fun e2 he2 => hpre2 e2 (List.mem_cons_of_mem e he2))

/-- **C6.**  When execution reaches a Choice element whose scene content
is `pre ++ (c1 :: cs) ++ d :: post` with `c1 :: cs` a maximal run of
consecutive choices (`d` is not a choice), `_handle_choice_start`
presents exactly the run `c1 :: cs` at a single prompt (their ids, texts
and availability flags, in order), and when the user picks an available
choice with no transition the runner applies that choice's effects and
continues at the structural successor of the *last* element of the group
— the id of `d` — which is never another choice of the group.  Id
hypotheses state the runner's documented precondition of stable unique
ids with consistent parent references (their actual absence in parser
output is the separate C1 finding). -/
theorem choice_grouping_successor
    (pre : List PElem) (c1 : PElem) (cs : List PElem) (d : PElem)
    (post : List PElem) (sid : Option String) (sname : String)
    (st : RunnerSt) (x dId cid : String) (ce : PElem) (tc : TaeChoice)
    (hchoice : ∀ e ∈ c1 :: cs, isChoiceElem e = true)
    (hdch : isChoiceElem d = false)
    (hx : idOfElem c1 = some x)
    (hdid : idOfElem d = some dId)
    (hrunIds : ∀ e ∈ c1 :: cs, (idOfElem e).isSome = true)
    (hrunNodup : ((c1 :: cs).map idOfElem).Nodup)
    (hpre : ∀ e ∈ pre, ∀ e2 ∈ c1 :: cs, ∀ z ∈ idsInElem e, idOfElem e2 ≠ some z)
    (hdrun : ∀ e ∈ c1 :: cs, idOfElem e ≠ some dId)
    (hce : ce ∈ c1 :: cs)
    (hceid : idOfElem ce = some cid)
    (hall : ∀ e ∈ c1 :: cs,
      (choiceEntry (derefState st.heap st.gs) e).isOk = true)
    (hentry : choiceEntry (derefState st.heap st.gs) ce = .ok (true, some tc))
    (htrans : tc.next_scene = none)
    (hmeta : cid ∉ metaCommands) :
    handleChoiceStart [⟨sid, sname, pre ++ (c1 :: cs) ++ d :: post⟩] st c1
        (some cid)
      = .ok ((c1 :: cs).map (fun e =>
            ((idOfElem e).getD "", textOf e,
              choiceAvail (derefState st.heap st.gs) e)),
          applyEffectsObjR st tc.effects (some cid), some dId) ∧
      some dId ∉ (c1 :: cs).map idOfElem := by
  have hne : c1 :: cs ≠ [] := List.cons_ne_nil c1 cs
  obtain ⟨y, hy⟩ : ∃ y, idOfElem ((c1 :: cs).getLast hne) = some y :=
    Option.isSome_iff_exists.mp (hrunIds _ (List.getLast_mem hne))
  have hdecomp : c1 :: cs = (c1 :: cs).dropLast ++ [(c1 :: cs).getLast hne] :=
    (List.dropLast_append_getLast hne).symm
  -- container lookup
  have hany : (pre ++ (c1 :: cs) ++ d :: post).any
      (fun e => idOfElem e = some x) = true :=
    List.any_eq_true.mpr ⟨c1, by simp, by simp [hx]⟩
  have hcont : containerOf [⟨sid, sname, pre ++ (c1 :: cs) ++ d :: post⟩] x
      = some (pre ++ (c1 :: cs) ++ d :: post) := by
    simp only [containerOf]
    rw [if_pos hany]
  -- index of the first choice
  have e3 : (pre ++ (c1 :: cs) ++ d :: post).findIdx?
      (fun e => idOfElem e = some x) = some pre.length := by
    rw [show pre ++ (c1 :: cs) ++ d :: post
        = pre ++ c1 :: (cs ++ d :: post) by simp]
    have hpreF : ∀ e ∈ pre,
        (fun e => decide (idOfElem e = some x)) e = false := by
      intro e he
      simp only [decide_eq_false_iff_not]
      intro hcontra
      exact hpre e he c1 (List.mem_cons_self c1 cs) x
        (id_mem_idsInElem hcontra) hx
    have hcF : (fun e => decide (idOfElem e = some x)) c1 = true := by
      simp [hx]
    have h0 := findIdx_first (fun e => decide (idOfElem e = some x)) pre c1
      (cs ++ d :: post) hpreF hcF 0
    simpa using h0
  -- the collected group
  have hdropEq : (pre ++ (c1 :: cs) ++ d :: post).drop (pre.length + 1)
      = cs ++ d :: post := by
    rw [show pre ++ (c1 :: cs) ++ d :: post
        = pre ++ c1 :: (cs ++ d :: post) by simp]
    exact drop_len_succ pre c1 (cs ++ d :: post)
  have htake : (cs ++ d :: post).takeWhile isChoiceElem = cs :=
    takeWhile_full_stop isChoiceElem cs d post
      (fun e he => hchoice e (List.mem_cons_of_mem c1 he)) hdch
  have hlast : (c1 :: cs).getLast? = some ((c1 :: cs).getLast hne) :=
    List.getLast?_eq_getLast (c1 :: cs) hne
  -- the structural successor of the last element of the group
  have hskipAll : ∀ e ∈ pre ++ (c1 :: cs).dropLast, y ∉ idsInElem e := by
    intro e he
    rcases List.mem_append.mp he with h1 | h1
    · intro hz
      exact hpre e h1 ((c1 :: cs).getLast hne) (List.getLast_mem hne) y hz hy
    · have hmem2 : e ∈ c1 :: cs := by
        have h2 : e ∈ (c1 :: cs).dropLast ++ [(c1 :: cs).getLast hne] :=
          List.mem_append_left _ h1
        rw [List.dropLast_append_getLast hne] at h2
        exact h2
      have hne2 : idOfElem e ≠ some y := by
        intro hcontra
        have hnd := hrunNodup
        rw [hdecomp, List.map_append] at hnd
        have hdisj := List.disjoint_of_nodup_append hnd
        exact hdisj (hcontra ▸ List.mem_map_of_mem idOfElem h1)
          (by simp [hy])
      rw [choice_idsInElem (hchoice e hmem2)]
      intro hz
      apply hne2
      cases hopt : idOfElem e with
      | none => rw [hopt] at hz; simp at hz
      | some a =>
        rw [hopt] at hz
        simp only [Option.toList_some, List.mem_singleton] at hz
        rw [hz]
  have hwalk : succInList (pre ++ (c1 :: cs) ++ d :: post) y none
      = some (some dId) := by
    have h1 : pre ++ (c1 :: cs) ++ d :: post
        = (pre ++ (c1 :: cs).dropLast)
          ++ ((c1 :: cs).getLast hne :: d :: post) := by
      conv_lhs => rw [hdecomp]
      simp [List.append_assoc]
    rw [h1, succInList_skip _ _ _ _ hskipAll]
    simp only [succInList]
    rw [if_pos hy]
    simp [hdid]
  have hsucc : nextSeqId [⟨sid, sname, pre ++ (c1 :: cs) ++ d :: post⟩] y
      = some dId := by
    simp only [nextSeqId]
    rw [hwalk]
  -- the evaluated entries
  have hbuild := buildChoiceEntries_eq (derefState st.heap st.gs)
    (c1 :: cs) hall
  -- the chosen entry lookup
  obtain ⟨pre2, suf, hsplit⟩ := List.append_of_mem hce
  have hpre2A : ∀ e ∈ pre2,
      idOfElem e ≠ some cid ∧ (idOfElem e).isSome = true := by
    intro e he
    constructor
    · intro hcontra
      have hnd := hrunNodup
      rw [hsplit, List.map_append] at hnd
      have hdisj := List.disjoint_of_nodup_append hnd
      exact hdisj (hcontra ▸ List.mem_map_of_mem idOfElem he)
        (by simp [hceid])
    · exact hrunIds e (by rw [hsplit]; exact List.mem_append_left _ he)
  have hentE : choiceAvailEntry (derefState st.heap st.gs) ce = some tc := by
    simp [choiceAvailEntry, hentry]
  have hget : dictGet ((c1 :: cs).filterMap
      (fun e => (choiceAvailEntry (derefState st.heap st.gs) e).map
        (fun tc2 => ((idOfElem e).getD "", tc2)))) cid = some tc := by
    rw [hsplit]
    exact dictGet_filterMap_entries (derefState st.heap st.gs) pre2 suf ce
      cid tc hpre2A hceid hentE
  -- the selection is not a meta-command
  have hm : cid ≠ "save" ∧ cid ≠ "load" ∧ cid ≠ "undo" ∧ cid ≠ "quit" ∧
      cid ≠ "next" := by
    simpa [metaCommands, not_or] using hmeta
  have hnotmeta : ¬(some cid = some "save" ∨ some cid = some "load" ∨
      some cid = some "undo" ∨ some cid = some "quit" ∨
      some cid = some "next" ∨ (some cid : Option String) = none) := by
    simp [hm.1, hm.2.1, hm.2.2.1, hm.2.2.2.1, hm.2.2.2.2]
  refine ⟨?_, ?_⟩
  · simp only [handleChoiceStart]
    rw [hx]
    simp only [Option.getD_some]
    rw [hcont]
    dsimp only
    rw [e3]
    dsimp only
    rw [hdropEq, htake, hlast]
    dsimp only
    rw [hy]
    simp only [Option.getD_some]
    rw [hbuild]
    dsimp only
    rw [if_neg hnotmeta]
    rw [hget]
    dsimp only
    rw [htrans]
    dsimp only
    rw [hsucc]
  · intro hcon
    obtain ⟨e, he, heq⟩ := List.mem_map.mp hcon
    exact hdrun e he heq

/-- Witness for C6: the spec's concrete scenario — three consecutive
choices between two dialogues; picking the first (available, no
transition) presents all three and continues at the dialogue `d1` after
the whole group. -/
theorem choice_grouping_successor_witness :
    (∀ e ∈ [c1Elem, c2Elem, c3Elem], isChoiceElem e = true) ∧
    handleChoiceStart
        [⟨some "s0", "main",
          [PElem.dialogue (some "d0") "N" "Pick" []] ++
            (c1Elem :: [c2Elem, c3Elem]) ++
            PElem.dialogue (some "d1") "N" "Done" [] :: []⟩]
        initialRunnerSt c1Elem (some "c1")
      = .ok ([("c1", "Go north", true), ("c2", "Go south", false),
            ("c3", "Give up", true)],
          applyEffectsObjR initialRunnerSt [] (some "c1"), some "d1") ∧
    some "d1" ∉ ([c1Elem, c2Elem, c3Elem] : List PElem).map idOfElem := by
  have h := choice_grouping_successor
    [PElem.dialogue (some "d0") "N" "Pick" []] c1Elem [c2Elem, c3Elem]
    (PElem.dialogue (some "d1") "N" "Done" []) [] (some "s0") "main"
    initialRunnerSt "c1" "d1" "c1" c1Elem ⟨[], none⟩
    (by decide) (by decide) rfl rfl (by decide) (by decide) (by decide)
    (by decide) (List.mem_cons_self c1Elem [c2Elem, c3Elem]) rfl (by decide)
    rfl rfl (by decide)
  exact ⟨by decide, h.1, h.2⟩

/-! ### C7: malformed expression handling -/

theorem splitChars_ne_nil (sep : Char) (cs : List Char) :
    splitChars sep cs ≠ [] := by
  cases cs with
  | nil => simp [splitChars]
  | cons c cs =>
    simp only [splitChars]
    split
    · simp
    · split <;> simp

theorem pySplit_ne_nil (s : String) (sep : Char) : pySplit s sep ≠ [] := by
  simpa [pySplit] using splitChars_ne_nil sep s.toList

theorem cond_create_unknown_keyword {s : String}
    (h : (pySplit s ':').headD "" ∉
      (["has_item", "check_stat", "check_var"] : List String)) :
    ∃ msg, Cond.create s = .error (.valueError msg) := by
  rcases hs : pySplit s ':' with _ | ⟨t, rest⟩
  · exact absurd hs (pySplit_ne_nil s ':')
  · rw [hs] at h
    simp only [List.headD_cons, List.mem_cons, List.mem_singleton,
      not_or] at h
    refine ⟨"Unknown condition type: " ++ t, ?_⟩
    unfold Cond.create
    rw [hs]
    simp only [if_neg h.1, if_neg h.2.1, if_neg h.2.2.1]

/-- **C7 counterexample.**  The spec claims every malformed expression
string is caught per-expression and "execution never aborts because of a
malformed expression", with an unresolvable `@if` condition skipping the
whole If.  But a known keyword with too few colon-delimited fields — the
condition string `has_item` alone — makes `Condition.create` raise
`IndexError`, which `_execute_if`'s `except ValueError` does not catch;
its generic `except Exception` handler returns `None`, halting the run
loop.  Skipping the If would instead continue at its structural successor
`e2`. -/
theorem malformed_if_halts_counterexample :
    Cond.create "has_item" = .error .indexError ∧
    executeIf ifDemoAst initialRunnerSt "e0" "has_item"
      [.dialogue (some "e1") "A" "Hi" []] none = none ∧
    nextSeqId ifDemoAst "e0" = some "e2" :=
  ⟨rfl, rfl, rfl⟩

/-- **C7 (amended).**  How the interpreter really treats malformed
expression strings: (1) an `@if` condition with an unknown leading keyword
raises `ValueError`, which `_execute_if` catches, skipping the entire If
to its structural successor; (2) but a known condition keyword with too
few colon-delimited fields raises `IndexError`, which falls to the
generic handler: `_execute_if` returns `None` and execution aborts;
(3) in `_apply_effects` a malformed effect string of either error class
is skipped per-expression, leaving the remaining effects to apply exactly
as if the offending string were absent; (4) so a dialogue element always
completes and hands over to its structural successor regardless of its
effect strings. -/
theorem malformed_expression_handling :
    (∀ (s : String) (ast : List PScene) (st : RunnerSt) (eid : String)
        (ifb : List PElem) (eb : Option (List PElem)),
      (pySplit (pyStrip s) ':').headD "" ∉
        (["has_item", "check_stat", "check_var"] : List String) →
      executeIf ast st eid s ifb eb = nextSeqId ast eid) ∧
    (∀ (kw : String) (ast : List PScene) (st : RunnerSt) (eid : String)
        (ifb : List PElem) (eb : Option (List PElem)),
      kw ∈ (["has_item", "check_stat", "check_var"] : List String) →
      executeIf ast st eid kw ifb eb = none) ∧
    (∀ (st : RunnerSt) (pre post : List String) (s : String)
        (ctx : Option String) (e : PyErr),
      Effect.create (pyStrip s) = .error e →
      applyEffectsR st (pre ++ s :: post) ctx = applyEffectsR st (pre ++ post) ctx) ∧
    (∀ (ast : List PScene) (st : RunnerSt) (eid : String)
        (effects : List String),
      (executeDialogue ast st eid effects).2 = nextSeqId ast eid) := by
  refine ⟨?_, ?_, ?_, ?_⟩
  · intro s ast st eid ifb eb h
    obtain ⟨msg, hc⟩ := cond_create_unknown_keyword h
    unfold executeIf
    rw [hc]
  · intro kw ast st eid ifb eb h
    simp only [List.mem_cons, List.mem_singleton] at h
    rcases h with rfl | rfl | rfl | h
    · rfl
    · rfl
    · rfl
    · exact absurd h (List.not_mem_nil kw)
  · intro st pre post s ctx e hc
    have hf : (pre ++ s :: post).filterMap
          (fun x => (Effect.create (pyStrip x)).toOption)
        = (pre ++ post).filterMap
          (fun x => (Effect.create (pyStrip x)).toOption) := by
      simp [List.filterMap_append, List.filterMap_cons, hc, Except.toOption]
    simp only [applyEffectsR, hf]
  · intro ast st eid effects
    rfl

/-! ### C8: whitespace after markers -/

theorem lookAhead_take (line : List Char) (pos : Nat) {m n : Nat}
    (hmn : m ≤ n) {v : List Char} (h : lookAhead line pos n = some v) :
    lookAhead line pos m = some (v.take m) := by
  simp only [lookAhead] at h ⊢
  by_cases hlen : pos + n ≤ line.length
  · rw [if_pos hlen] at h
    obtain rfl := (Option.some.inj h).symm
    rw [if_pos (show pos + m ≤ line.length by omega), List.take_take,
      Nat.min_eq_left hmn]
  · rw [if_neg hlen] at h
    exact Option.noConfusion h

theorem handleDialogue_eq_some (line : List Char) (pos : Nat) (c : Char)
    (hc : line.get? (pos + 1) = some c) :
    handleDialogue line pos =
      if c.isWhitespace then
        .ok (skipWsFrom line (pos + 2), (TokenType.DIALOGUE, ">"))
      else .error (.missingWsDialogue pos) := by
  simp only [handleDialogue]
  rw [hc]

theorem handleDialogue_eq_none (line : List Char) (pos : Nat)
    (hc : line.get? (pos + 1) = none) :
    handleDialogue line pos = .error (.missingWsDialogue pos) := by
  simp only [handleDialogue]
  rw [hc]

theorem handleTransition_eq_some (line : List Char) (pos : Nat) (c : Char)
    (hc : line.get? (pos + 2) = some c) :
    handleTransition line pos =
      if c.isWhitespace then
        .ok (skipWsFrom line (pos + 2), (TokenType.TRANSITION, "->"))
      else .error (.missingWsTransition pos) := by
  simp only [handleTransition]
  rw [hc]

theorem handleTransition_eq_none (line : List Char) (pos : Nat)
    (hc : line.get? (pos + 2) = none) :
    handleTransition line pos = .error (.missingWsTransition pos) := by
  simp only [handleTransition]
  rw [hc]

/-- **C8 counterexample.**  The spec claims every marker must be followed
by whitespace or end of line, with a lexing error exactly on violation.
But `_handle_choice` performs no whitespace check at all: the line `*x`
lexes successfully (no error, despite `x` not being whitespace); and for
the dialogue and transition markers the end of the line is itself the
error: the one-character line `>` and the line `> x ->` both raise even
though the marker sits at the end of the line. -/
theorem marker_whitespace_counterexample :
    tokenizeLine "*x".toList
      = .ok [(TokenType.CHOICE, "*"), (TokenType.TEXT, "x")] ∧
    'x'.isWhitespace = false ∧
    tokenizeLine ">".toList = .error (.missingWsDialogue 0) ∧
    tokenizeLine "> x ->".toList = .error (.missingWsTransition 4) :=
  ⟨rfl, rfl, rfl, rfl⟩

/-- **C8 (amended).**  What the lexer's marker handlers really require:
(a) the choice marker `*` has no whitespace requirement and never raises;
(b) the dialogue marker `>` succeeds exactly when a whitespace character
follows immediately — the end of the line is an error, reported at the
marker's position; (c) the transition marker `->` behaves the same at its
own offset; (d) only the four directives truly allow whitespace or end of
line, any other following character being an error reported at the
position immediately after the directive. -/
theorem marker_whitespace_requirement :
    (∀ (line : List Char) (pos : Nat), ∃ r, handleChoice line pos = .ok r) ∧
    (∀ (line : List Char) (pos : Nat),
      (∃ r, handleDialogue line pos = .ok r) ↔
        (∃ c, line.get? (pos + 1) = some c ∧ c.isWhitespace = true)) ∧
    (∀ (line : List Char) (pos : Nat),
      ¬(∃ c, line.get? (pos + 1) = some c ∧ c.isWhitespace = true) →
      handleDialogue line pos = .error (.missingWsDialogue pos)) ∧
    (∀ (line : List Char) (pos : Nat),
      (∃ r, handleTransition line pos = .ok r) ↔
        (∃ c, line.get? (pos + 2) = some c ∧ c.isWhitespace = true)) ∧
    (∀ (line : List Char) (pos : Nat),
      ¬(∃ c, line.get? (pos + 2) = some c ∧ c.isWhitespace = true) →
      handleTransition line pos = .error (.missingWsTransition pos)) ∧
    (∀ (line : List Char) (pos dlen : Nat) (dstr : String) (tt : TokenType),
      (dstr, dlen, tt) ∈ [("@scene", 6, TokenType.SCENE),
        ("@if", 3, TokenType.IF), ("@else", 5, TokenType.ELSE),
        ("@endif", 6, TokenType.ENDIF)] →
      lookAhead line pos dlen = some dstr.toList →
      handleDirectives line pos =
        match line.get? (pos + dlen) with
        | some c =>
          if c.isWhitespace then
            .ok (skipWsFrom line (pos + dlen), (tt, dstr))
          else .error (.unexpectedAfterDirective (pos + dlen))
        | none => .ok (pos + dlen, (tt, dstr))) := by
  refine ⟨?_, ?_, ?_, ?_, ?_, ?_⟩
  · intro line pos
    exact ⟨_, rfl⟩
  · intro line pos
    constructor
    · rintro ⟨r, hr⟩
      rcases hc : line.get? (pos + 1) with _ | c
      · rw [handleDialogue_eq_none line pos hc] at hr
        exact Except.noConfusion hr
      · rw [handleDialogue_eq_some line pos c hc] at hr
        by_cases hws : c.isWhitespace
        · exact ⟨c, rfl, hws⟩
        · rw [if_neg hws] at hr
          exact Except.noConfusion hr
    · rintro ⟨c, hc, hws⟩
      rw [handleDialogue_eq_some line pos c hc, if_pos hws]
      exact ⟨_, rfl⟩
  · intro line pos h
    rcases hc : line.get? (pos + 1) with _ | c
    · exact handleDialogue_eq_none line pos hc
    · rw [handleDialogue_eq_some line pos c hc,
        if_neg (fun hws => h ⟨c, hc, hws⟩)]
  · intro line pos
    constructor
    · rintro ⟨r, hr⟩
      rcases hc : line.get? (pos + 2) with _ | c
      · rw [handleTransition_eq_none line pos hc] at hr
        exact Except.noConfusion hr
      · rw [handleTransition_eq_some line pos c hc] at hr
        by_cases hws : c.isWhitespace
        · exact ⟨c, rfl, hws⟩
        · rw [if_neg hws] at hr
          exact Except.noConfusion hr
    · rintro ⟨c, hc, hws⟩
      rw [handleTransition_eq_some line pos c hc, if_pos hws]
      exact ⟨_, rfl⟩
  · intro line pos h
    rcases hc : line.get? (pos + 2) with _ | c
    · exact handleTransition_eq_none line pos hc
    · rw [handleTransition_eq_some line pos c hc,
        if_neg (fun hws => h ⟨c, hc, hws⟩)]
  · intro line pos dlen dstr tt hmem h
    simp only [List.mem_cons, List.mem_singleton, Prod.mk.injEq] at hmem
    rcases hmem with ⟨h1, h2, h3⟩ | ⟨h1, h2, h3⟩ | ⟨h1, h2, h3⟩ |
        ⟨h1, h2, h3⟩ | hfalse
    · subst h1; subst h2; subst h3
      simp only [handleDirectives]
      rw [if_pos h]
    · subst h1; subst h2; subst h3
      have hns : ¬ lookAhead line pos 6 = some "@scene".toList := by
        intro hcon
        have h3 := @lookAhead_take line pos 3 6 (by omega) ("@scene".toList) hcon
        rw [h] at h3
        exact absurd h3 (by decide)
      simp only [handleDirectives]
      rw [if_neg hns, if_pos h]
    · subst h1; subst h2; subst h3
      have hns : ¬ lookAhead line pos 6 = some "@scene".toList := by
        intro hcon
        have h3 := @lookAhead_take line pos 5 6 (by omega) ("@scene".toList) hcon
        rw [h] at h3
        exact absurd h3 (by decide)
      have hni : ¬ lookAhead line pos 3 = some "@if".toList := by
        have h3 := @lookAhead_take line pos 3 5 (by omega) ("@else".toList) h
        intro hcon
        rw [h3] at hcon
        exact absurd hcon (by decide)
      simp only [handleDirectives]
      rw [if_neg hns, if_neg hni, if_pos h]
    · subst h1; subst h2; subst h3
      have hns : ¬ lookAhead line pos 6 = some "@scene".toList := by
        intro hcon
        rw [h] at hcon
        exact absurd hcon (by decide)
      have hni : ¬ lookAhead line pos 3 = some "@if".toList := by
        have h3 := @lookAhead_take line pos 3 6 (by omega) ("@endif".toList) h
        intro hcon
        rw [h3] at hcon
        exact absurd hcon (by decide)
      have hne2 : ¬ lookAhead line pos 5 = some "@else".toList := by
        have h3 := @lookAhead_take line pos 5 6 (by omega) ("@endif".toList) h
        intro hcon
        rw [h3] at hcon
        exact absurd hcon (by decide)
      simp only [handleDirectives]
      rw [if_neg hns, if_neg hni, if_neg hne2, if_pos h]
    · exact absurd hfalse (by simp)

end TAE
